import Mathlib

/-!
Shallow embedding of the torque-tracker-engine core, translated from the
Rust sources (src/src and src/simple-left-right).  Machine integers
(u8 / u16 / u32 / usize) are modelled as Nat; wrapping arithmetic is made
explicit where it can occur.  f32 audio data and the fixed-point phase of
the sample player are modelled as exact rationals.  Code that can panic
(array indexing, assert!, unwrap) is modelled with Option / Except, where
the none / error value stands for the panic.
-/

namespace TrackerEngine

/-- src/src/song/note_event.rs: a note, a u8 restricted to 0..=199 by
Note::new; wrapped here without the range restriction, exactly like the
newtype stores its raw u8. -/
structure Note where
  val : ℕ
deriving DecidableEq

/-- src/src/project/event_command.rs: a large effect-command enum.  No
verified claim inspects its contents, so it is kept as the pair of its
discriminant and its u8 payload. -/
structure NoteCommand where
  tag : ℕ
  arg : ℕ
deriving DecidableEq

/-- src/src/song/note_event.rs: VolumeEffect, likewise kept as
discriminant plus payload since no claim inspects it. -/
structure VolumeEffect where
  tag : ℕ
  arg : ℕ
deriving DecidableEq

/-- src/src/song/note_event.rs: NoteEvent. -/
structure NoteEvent where
  note : Note
  sample_instr : ℕ
  vol : VolumeEffect
  command : NoteCommand
deriving DecidableEq

/-- src/src/playback/channel.rs: Pan. -/
inductive Pan where
  | value (v : ℕ)
  | surround
  | disabled
deriving DecidableEq

/-- src/src/file/impulse_format/header.rs: PatternOrder; EndOfSong is the
Default variant. -/
inductive PatternOrder where
  | number (pattern : ℕ)
  | endOfSong
  | skipOrder
deriving DecidableEq

/-- src/src/file/impulse_format/sample.rs: VibratoWave. -/
inductive VibratoWave where
  | sine
  | rampDown
  | square
  | random
deriving DecidableEq

/-- src/src/sample.rs: SampleMetaData. -/
structure SampleMetaData where
  default_volume : ℕ
  global_volume : ℕ
  default_pan : Option ℕ
  vibrato_speed : ℕ
  vibrato_depth : ℕ
  vibrato_rate : ℕ
  vibrato_waveform : VibratoWave
  sample_rate : ℕ
  base_note : Note
deriving DecidableEq

/-- src/src/sample.rs: Sample — a PCM buffer of f32 data (modelled as
exact rationals) with a mono/stereo flag; stereo data is interleaved. -/
structure SampleQ where
  mono : Bool
  data : List ℚ
deriving DecidableEq

def Sample.MAX_LENGTH : ℕ := 16000000

/-- src/src/sample.rs: PAD_SIZE_EACH = 4 guard frames at each end. -/
def Sample.PAD_SIZE_EACH : ℕ := 4

/-- src/src/sample.rs: len_with_pad, in frames. -/
def SampleQ.len_with_pad (s : SampleQ) : ℕ :=
  if s.mono then s.data.length else s.data.length / 2

/-- src/src/sample.rs: Sample::new_mono — prepends and appends
PAD_SIZE_EACH silent frames.  The construction is total in the source:
there is no length check against MAX_LENGTH. -/
def SampleQ.new_mono (data : List ℚ) : SampleQ :=
  { mono := true
    data := List.replicate Sample.PAD_SIZE_EACH 0 ++ data ++
      List.replicate Sample.PAD_SIZE_EACH 0 }

/-- src/src/sample.rs: Sample::new_stereo_interpolated — the input is
interleaved stereo data; 2 * PAD_SIZE_EACH zero values (= PAD_SIZE_EACH
silent stereo frames) are prepended and appended.  Total, like new_mono. -/
def SampleQ.new_stereo_interpolated (data : List ℚ) : SampleQ :=
  { mono := false
    data := List.replicate (2 * Sample.PAD_SIZE_EACH) 0 ++ data ++
      List.replicate (2 * Sample.PAD_SIZE_EACH) 0 }

/-- A stereo output frame ([f32; 2] in src/src/audio_processing/mod.rs),
with exact rational components; addition is componentwise. -/
abbrev Frame := ℚ × ℚ

/-- src/src/sample.rs: Sample::index — mono data is broadcast to both
channels; out-of-bounds indexing (a panic in Rust) is the none case. -/
def SampleQ.index (s : SampleQ) (idx : ℕ) : Option Frame :=
  if s.mono then
    (s.data.get? idx).map fun v => (v, v)
  else do
    let a ← s.data.get? (idx * 2)
    let b ← s.data.get? (idx * 2 + 1)
    pure (a, b)

/-- src/src/project/pattern.rs: InPatternPosition {row: u16, channel: u8};
ordered lexicographically by the derived PartialOrd. -/
structure InPatternPosition where
  row : ℕ
  channel : ℕ
deriving DecidableEq

/-- The strict lexicographic order (row, then channel) that the derived
Ord instance of InPatternPosition gives. -/
def InPatternPosition.lt (a b : InPatternPosition) : Prop :=
  a.row < b.row ∨ (a.row = b.row ∧ a.channel < b.channel)

instance (a b : InPatternPosition) : Decidable (a.lt b) := by
  unfold InPatternPosition.lt; infer_instance

/-- Boolean form of the lexicographic order, for the partition-point
predicates. -/
def InPatternPosition.ltb (a b : InPatternPosition) : Bool :=
  decide (a.lt b)

/-- Rust slice::partition_point on a slice that is partitioned by the
predicate (all true elements before all false ones): it returns the count
of elements satisfying the predicate, i.e. the length of the maximal true
prefix.  Every use in the source applies it to data sorted so that the
predicate is partitioned. -/
def partition_point {α : Type} (p : α → Bool) (l : List α) : ℕ :=
  (l.takeWhile p).length

/-- src/src/project/pattern.rs: Pattern — a row count plus the sorted
compact event sequence. -/
structure Pattern where
  rows : ℕ
  data : List (InPatternPosition × NoteEvent)
deriving DecidableEq

def Pattern.MAX_ROWS : ℕ := 200

def Pattern.DEFAULT_ROWS : ℕ := 64

/-- Pattern::default() = Pattern::new(DEFAULT_ROWS) (the assert in new
cannot fire for 64). -/
def Pattern.default : Pattern := { rows := Pattern.DEFAULT_ROWS, data := [] }

/-- src/src/project/pattern.rs: Pattern::set_length.  The assert!
(new_len <= MAX_ROWS) is the none case; on new_len < rows the data is
truncated at the partition point of row < new_len. -/
def Pattern.set_length (p : Pattern) (new_len : ℕ) : Option Pattern :=
  if new_len ≤ Pattern.MAX_ROWS then
    some (if new_len < p.rows then
      { rows := new_len
        data := p.data.take (partition_point (fun e => decide (e.1.row < new_len)) p.data) }
    else
      { rows := new_len, data := p.data })
  else
    none

/-- Ordered insert-or-replace used to model Vec::binary_search_by_key
followed by replace (Ok) or insert (Err) in Pattern::set_event: on the
sorted event sequence the binary search finds exactly this position. -/
def insertEvent : List (InPatternPosition × NoteEvent) → InPatternPosition → NoteEvent →
    List (InPatternPosition × NoteEvent)
  | [], pos, ev => [(pos, ev)]
  | e :: rest, pos, ev =>
    if e.1.lt pos then e :: insertEvent rest pos ev
    else if e.1 = pos then (pos, ev) :: rest
    else (pos, ev) :: e :: rest

/-- src/src/project/pattern.rs: Pattern::set_event; the assert!
(position.row < rows) is the none case. -/
def Pattern.set_event (p : Pattern) (position : InPatternPosition) (event : NoteEvent) :
    Option Pattern :=
  if position.row < p.rows then
    some { p with data := insertEvent p.data position event }
  else
    none

/-- Removal of the (unique, on sorted data) event at a position, modelling
binary_search_by_key + Vec::remove in Pattern::remove_event; no event
means no change. -/
def removeEventList : List (InPatternPosition × NoteEvent) → InPatternPosition →
    List (InPatternPosition × NoteEvent)
  | [], _ => []
  | e :: rest, pos => if e.1 = pos then rest else e :: removeEventList rest pos

/-- src/src/project/pattern.rs: Pattern::remove_event. -/
def Pattern.remove_event (p : Pattern) (position : InPatternPosition) : Pattern :=
  { p with data := removeEventList p.data position }

def Pattern.row_count (p : Pattern) : ℕ := p.rows

/-- src/src/project/pattern.rs: PatternOperation. -/
inductive PatternOperation where
  | setLength (new_len : ℕ)
  | setEvent (position : InPatternPosition) (event : NoteEvent)
  | removeEvent (position : InPatternPosition)
deriving DecidableEq

/-- src/src/project/pattern.rs: Pattern::apply_operation (panics of the
inner asserts are the none case). -/
def Pattern.apply_operation (p : Pattern) (op : PatternOperation) : Option Pattern :=
  match op with
  | .setLength new_len => p.set_length new_len
  | .setEvent position event => p.set_event position event
  | .removeEvent position => some (p.remove_event position)

def Song.MAX_ORDERS : ℕ := 256
def Song.MAX_PATTERNS : ℕ := 240
def Song.MAX_SAMPLES_INSTR : ℕ := 236
def Song.MAX_CHANNELS : ℕ := 64

/-- src/src/project/pattern.rs: Pattern::operation_is_valid.  Note the
source checks new_len < MAX_ROWS (strict) and channel <= MAX_CHANNELS
(non-strict). -/
def Pattern.operation_is_valid (p : Pattern) (op : PatternOperation) : Bool :=
  match op with
  | .setLength new_len => decide (new_len < Pattern.MAX_ROWS)
  | .setEvent position _ =>
    decide (position.row < p.rows) && decide (position.channel ≤ Song.MAX_CHANNELS)
  | .removeEvent _ => true

/-- src/src/project/pattern.rs: the Index<u16> impl returning the row
slice data[start_position..end_position]. -/
def Pattern.index (p : Pattern) (index : ℕ) : List (InPatternPosition × NoteEvent) :=
  let start_position :=
    partition_point (fun e => e.1.ltb { row := index, channel := 0 }) p.data
  let end_position :=
    partition_point (fun e => e.1.ltb { row := index + 1, channel := 0 })
      (p.data.drop start_position) + start_position
  (p.data.drop start_position).take (end_position - start_position)

/-- src/src/project/song.rs: Song.  The fixed-size arrays are lists whose
lengths are 240 / 256 / 64 / 64 / 236 in every reachable value. -/
structure Song where
  global_volume : ℕ
  mix_volume : ℕ
  initial_speed : ℕ
  initial_tempo : ℕ
  pan_separation : ℕ
  pitch_wheel_depth : ℕ
  patterns : List Pattern
  pattern_order : List PatternOrder
  volume : List ℕ
  pan : List Pan
  samples : List (Option (SampleMetaData × SampleQ))
deriving DecidableEq

/-- src/src/project/song.rs: Song::get_order — out of bounds is
EndOfSong (unwrap_or_default). -/
def Song.get_order (s : Song) (order : ℕ) : PatternOrder :=
  ((s.pattern_order.get? order).getD PatternOrder.endOfSong)

/-- src/src/project/song.rs: Song::next_pattern.  The &mut u16 argument
is modelled by returning the updated order index alongside the result.
The loop advances only past SkipOrder entries; on Number it breaks with
the order index unchanged. -/
def Song.next_pattern (s : Song) (order : ℕ) : Option ℕ × ℕ :=
  match h : s.get_order order with
  | .number pattern => (some pattern, order)
  | .endOfSong => (none, order)
  | .skipOrder => s.next_pattern (order + 1)
termination_by s.pattern_order.length - order
decreasing_by
  have horder : order < s.pattern_order.length := by
    by_contra hge
    have hnone : s.pattern_order.get? order = none :=
      List.get?_eq_none.mpr (le_of_not_lt hge)
    rw [List.get?_eq_getElem?] at hnone
    simp only [Song.get_order, List.get?_eq_getElem?] at h
    rw [hnone] at h
    simp at h
  omega

/-- src/src/project/song.rs: Song::default(). -/
def Song.default : Song :=
  { global_volume := 128
    mix_volume := 0
    initial_speed := 6
    initial_tempo := 125
    pan_separation := 128
    pitch_wheel_depth := 0
    patterns := List.replicate Song.MAX_PATTERNS Pattern.default
    pattern_order := List.replicate Song.MAX_ORDERS PatternOrder.endOfSong
    volume := List.replicate Song.MAX_CHANNELS 64
    pan := List.replicate Song.MAX_CHANNELS (Pan.value 32)
    samples := List.replicate Song.MAX_SAMPLES_INSTR none }

/-- src/src/project/song.rs: SongOperation. -/
inductive SongOperation where
  | setVolume (channel : ℕ) (val : ℕ)
  | setPan (channel : ℕ) (val : Pan)
  | setSample (idx : ℕ) (meta : SampleMetaData) (sample : SampleQ)
  | removeSample (idx : ℕ)
  | patternOperation (idx : ℕ) (op : PatternOperation)
  | setOrder (idx : ℕ) (order : PatternOrder)
  | setInitialSpeed (s : ℕ)
  | setInitialTempo (t : ℕ)
  | setGlobalVol (v : ℕ)
deriving DecidableEq

/-- src/src/project/song.rs: ValidOperation — in the source an enum that
is variant-for-variant identical to SongOperation; modelled as the same
type. -/
def ValidOperation := SongOperation

/-- src/src/manager.rs: Collector — the retained-sample list of the
reclaimer. -/
structure Collector where
  samples : List SampleQ
deriving DecidableEq

/-- src/src/manager.rs: Collector::add_sample. -/
def Collector.add_sample (c : Collector) (sample : SampleQ) : Collector :=
  { samples := c.samples ++ [sample] }

/-- src/src/project/song.rs: the validity computation of
ValidOperation::new (the match producing the valid flag). -/
def SongOperation.is_valid (op : SongOperation) (song : Song) : Bool :=
  match op with
  | .setVolume c _ => decide (c < Song.MAX_CHANNELS)
  | .setPan c _ => decide (c < Song.MAX_CHANNELS)
  | .setSample idx _ _ => decide (idx < Song.MAX_SAMPLES_INSTR)
  | .removeSample idx => decide (idx < Song.MAX_SAMPLES_INSTR)
  | .patternOperation idx pop =>
    match song.patterns.get? idx with
    | some pattern => pattern.operation_is_valid pop
    | none => false
  | .setOrder idx _ => decide (idx < Song.MAX_ORDERS)
  | .setInitialSpeed _ => true
  | .setInitialTempo _ => true
  | .setGlobalVol _ => true

/-- src/src/project/song.rs: ValidOperation::new.  On success the
operation is rebuilt as a ValidOperation (SetSample additionally clones
the sample into the collector); on failure the operation is returned
unchanged and the collector untouched. -/
def ValidOperation.new (op : SongOperation) (handle : Collector) (song : Song) :
    Except SongOperation ValidOperation × Collector :=
  if op.is_valid song then
    match op with
    | .setSample i meta sample =>
      (Except.ok (SongOperation.setSample i meta sample), handle.add_sample sample)
    | o => (Except.ok o, handle)
  else
    (Except.error op, handle)

/-- src/src/project/song.rs: the Absorb impl for Song.  Rust array
indexing panics out of bounds; for a valid operation on a well-formed
song every index is in range, so the guards return none only on the
panic paths. -/
def Song.absorb (song : Song) (operation : ValidOperation) : Option Song :=
  match operation with
  | .setVolume i val =>
    if i < song.volume.length then some { song with volume := song.volume.set i val } else none
  | .setPan i val =>
    if i < song.pan.length then some { song with pan := song.pan.set i val } else none
  | .setSample i meta sample =>
    if i < song.samples.length then
      some { song with samples := song.samples.set i (some (meta, sample)) }
    else none
  | .removeSample i =>
    if i < song.samples.length then
      some { song with samples := song.samples.set i none }
    else none
  | .patternOperation i op => do
    let p ← song.patterns.get? i
    let p' ← p.apply_operation op
    pure { song with patterns := song.patterns.set i p' }
  | .setOrder i order =>
    if i < song.pattern_order.length then
      some { song with pattern_order := song.pattern_order.set i order }
    else none
  | .setInitialSpeed s => some { song with initial_speed := s }
  | .setInitialTempo t => some { song with initial_tempo := t }
  | .setGlobalVol v => some { song with global_volume := v }

/-- src/src/manager.rs: SongEdit::apply_operation — validate, then absorb
into the write-side snapshot.  The first component is the Result value;
the second and third are the song (write snapshot) and collector after
the call (the absorbed song is an Option because absorb models array
panics). -/
def SongEdit.apply_operation (song : Song) (gc : Collector) (op : SongOperation) :
    Except SongOperation Unit × Option Song × Collector :=
  match ValidOperation.new op gc song with
  | (Except.ok vop, gc') => (Except.ok (), song.absorb vop, gc')
  | (Except.error o, gc') => (Except.error o, some song, gc')

/-- src/src/audio_processing/sample.rs: Interpolation. -/
inductive Interpolation where
  | nearest
  | linear
deriving DecidableEq

/-- src/src/audio_processing/sample.rs: Interpolation::pad_needed. -/
def Interpolation.pad_needed : Interpolation → ℕ
  | .nearest => 1
  | .linear => 1

/-- f32::trunc — rounding toward zero — on the exact rational model. -/
def ratTrunc (q : ℚ) : ℤ :=
  if 0 ≤ q then ⌊q⌋ else -⌊-q⌋

/-- src/src/audio_processing/sample.rs: SamplePlayer.  The fixed-point
phase `position: (usize, f32)` is the pair (pos, frac); step_size is the
stored f32 step, modelled as an exact rational. -/
structure SamplePlayer where
  sample : SampleQ
  meta : SampleMetaData
  note : Note
  pos : ℕ
  frac : ℚ
  out_rate : ℕ
  step_size : ℚ
deriving DecidableEq

/-- src/src/audio_processing/sample.rs: SamplePlayer::check_position —
Break (true) when position.0 > len_with_pad - PAD_SIZE_EACH (usize
subtraction; every sample the claims consider has len_with_pad ≥ PAD, so
the Nat truncated subtraction agrees with the source). -/
def SamplePlayer.check_position (p : SamplePlayer) : Bool :=
  decide (p.pos > p.sample.len_with_pad - Sample.PAD_SIZE_EACH)

/-- src/src/audio_processing/sample.rs: SamplePlayer::step — add the step
size into the fractional part, move its truncated integer part (cast with
the saturating `as usize`, hence Int.toNat) into the integer part. -/
def SamplePlayer.step (p : SamplePlayer) : SamplePlayer :=
  let f := p.frac + p.step_size
  let fl := ratTrunc f
  { p with frac := f - fl, pos := p.pos + fl.toNat }

/-- src/src/audio_processing/sample.rs: SamplePlayer::compute_linear, via
Sample::compute with the 2-tap Linear kernel
(data[1] - data[0]) * frac + data[0] applied per channel.  The window
accesses of Sample::compute are exactly reads of frames pos and pos + 1
(mono kernel-then-broadcast coincides with broadcast-then-kernel), and
the slice panic condition coincides with either read being out of
bounds. -/
def SamplePlayer.compute_linear (p : SamplePlayer) : Option Frame := do
  let a ← p.sample.index p.pos
  let b ← p.sample.index (p.pos + 1)
  pure (a.1 + (b.1 - a.1) * p.frac, a.2 + (b.2 - a.2) * p.frac)

/-- src/src/audio_processing/sample.rs: SamplePlayer::compute_nearest. -/
def SamplePlayer.compute_nearest (p : SamplePlayer) : Option Frame :=
  p.sample.index (if p.frac < 1/2 then p.pos else p.pos + 1)

/-- The kernel dispatch of SamplePlayer::next (the match on the const
INTERPOLATION parameter). -/
def SamplePlayer.computeFrame (interp : Interpolation) (p : SamplePlayer) : Option Frame :=
  match interp with
  | .nearest => p.compute_nearest
  | .linear => p.compute_linear

/-- src/src/audio_processing/sample.rs: SamplePlayer::next — none when
the voice is done; the error value is the out-of-bounds panic inside the
kernel computation. -/
def SamplePlayer.next (interp : Interpolation) (p : SamplePlayer) :
    Except Unit (Option (Frame × SamplePlayer)) :=
  if p.check_position then
    Except.ok none
  else
    match p.computeFrame interp with
    | none => Except.error ()
    | some out => Except.ok (some (out, p.step))

/-- One call of SamplePlayer::next viewed as a state transformer: the
state advances exactly when the call produced a frame. -/
def SamplePlayer.advance (interp : Interpolation) (p : SamplePlayer) : SamplePlayer :=
  match p.next interp with
  | Except.ok (some (_, p')) => p'
  | _ => p

/-- std::ops::ControlFlow<()> as used by the playback position logic. -/
inductive ControlFlowU where
  | Continue
  | Break
deriving DecidableEq

/-- src/src/manager.rs: PlaybackSettings. -/
inductive PlaybackSettings where
  | pattern (idx : ℕ) (should_loop : Bool)
  | order (idx : ℕ) (should_loop : Bool)
deriving DecidableEq

/-- src/src/audio_processing/playback.rs: PlaybackPosition. -/
structure PlaybackPosition where
  order : Option ℕ
  pattern : ℕ
  row : ℕ
  loop_active : Bool
deriving DecidableEq

/-- src/src/audio_processing/playback.rs: PlaybackPosition::step_row.
The outer none is the panic of song.patterns[self.pattern] going out of
bounds; the &mut mutations are reflected in the returned position. -/
def PlaybackPosition.step_row (song : Song) (p : PlaybackPosition) :
    Option (ControlFlowU × PlaybackPosition) := do
  let pat ← song.patterns.get? p.pattern
  let row' := p.row + 1
  if row' ≥ pat.row_count then
    match p.order with
    | some order =>
      match song.next_pattern order with
      | (some pattern, order') =>
        pure (ControlFlowU.Continue, { p with row := 0, order := some order', pattern := pattern })
      | (none, order') =>
        if !p.loop_active then
          pure (ControlFlowU.Break, { p with row := 0, order := some order' })
        else
          match song.next_pattern 0 with
          | (some pattern, order'') =>
            pure (ControlFlowU.Continue,
              { p with row := 0, order := some order'', pattern := pattern })
          | (none, order'') =>
            pure (ControlFlowU.Break, { p with row := 0, order := some order'' })
    | none =>
      if p.loop_active then
        pure (ControlFlowU.Continue, { p with row := 0 })
      else
        pure (ControlFlowU.Break, { p with row := 0 })
  else
    pure (ControlFlowU.Continue, { p with row := row' })

/-- src/src/audio_processing/playback.rs: PlaybackPosition::new. -/
def PlaybackPosition.new (settings : PlaybackSettings) (song : Song) :
    Option PlaybackPosition :=
  match settings with
  | .pattern idx should_loop =>
    if idx < song.patterns.length then
      some { order := none, pattern := idx, row := 0, loop_active := should_loop }
    else
      none
  | .order idx should_loop =>
    match song.next_pattern idx with
    | (some pattern, idx') =>
      some { order := some idx', pattern := pattern, row := 0, loop_active := should_loop }
    | (none, _) => none

/-- src/src/audio_processing/playback.rs: PlaybackState::frames_per_tick
= (samplerate * 10) / tempo in u32 arithmetic (the multiply wraps at
2^32 in release builds). -/
def PlaybackState.frames_per_tick (samplerate : ℕ) (tempo : ℕ) : ℕ :=
  samplerate * 10 % 2 ^ 32 / tempo

/-- src/src/audio_processing/playback.rs: PlaybackState.  VOICES = 256;
every reachable state has voices.length = 256. -/
structure PlaybackState where
  position : PlaybackPosition
  is_done : Bool
  tick : ℕ
  frame : ℕ
  samplerate : ℕ
  voices : List (Option SamplePlayer)
deriving DecidableEq

def PlaybackState.VOICES : ℕ := 256

/-- src/src/audio_processing/playback.rs: PlaybackIter::step_generic.
Returns (changed, new state); changed = true means the position advanced
to a new row and sample players must be created.  none is the pattern
index panic inside step_row. -/
def PlaybackIter.step_generic (song : Song) (st : PlaybackState) :
    Option (Bool × PlaybackState) :=
  if st.frame > 0 then
    some (false, { st with frame := st.frame - 1 })
  else
    let st := { st with
      frame := PlaybackState.frames_per_tick st.samplerate song.initial_tempo }
    if st.tick > 0 then
      some (false, { st with tick := st.tick - 1 })
    else
      let st := { st with tick := song.initial_speed }
      match PlaybackPosition.step_row song st.position with
      | none => none
      | some (ControlFlowU.Continue, p') => some (true, { st with position := p' })
      | some (ControlFlowU.Break, p') =>
        some (false, { st with position := p', is_done := true })

/-- src/src/audio_processing/playback.rs: SamplePlayer::new as invoked by
create_sample_players.  compute_step_size is irrational f32 arithmetic
(an exp2 of a note difference scaled by the rate ratio), so the embedding
takes the step-size computation as the parameter css; no claim depends on
its value. -/
def SamplePlayer.new (css : SampleMetaData → ℕ → Note → ℚ)
    (sample : SampleQ) (meta : SampleMetaData) (out_rate : ℕ) (note : Note) :
    SamplePlayer :=
  { sample := sample
    meta := meta
    note := note
    pos := Sample.PAD_SIZE_EACH
    frac := 0
    out_rate := out_rate
    step_size := css meta out_rate note }

/-- src/src/audio_processing/playback.rs: the create_sample_players macro
body — for every event of the new row whose sample slot is occupied,
build a player and store it at the event's channel.  The outer nones are
the array-index panics (pattern index, sample_instr ≥ 236); the channel
store uses List.set, which matches the source because a u8 channel is
always < 256 = voices.length. -/
def PlaybackIter.create_sample_players (css : SampleMetaData → ℕ → Note → ℚ)
    (song : Song) (st : PlaybackState) : Option PlaybackState := do
  let pat ← song.patterns.get? st.position.pattern
  (pat.index st.position.row).foldlM (fun (acc : PlaybackState) pe => do
    let slot ← song.samples.get? pe.2.sample_instr
    match slot with
    | some (meta, sample) =>
      pure { acc with
        voices := acc.voices.set pe.1.channel
          (some (SamplePlayer.new css sample meta acc.samplerate pe.2.note)) }
    | none => pure acc) st

/-- src/src/audio_processing/playback.rs: PlaybackIter::step =
step_generic, then create_sample_players when the row changed. -/
def PlaybackIter.step (css : SampleMetaData → ℕ → Note → ℚ)
    (song : Song) (st : PlaybackState) : Option PlaybackState :=
  match PlaybackIter.step_generic song st with
  | none => none
  | some (true, st') => PlaybackIter.create_sample_players css song st'
  | some (false, st') => some st'

/-- src/src/audio_processing/playback.rs: the voice loop of the next!
macro — each occupied channel yields voice.next().unwrap() (the unwrap
panic is the error case), the channel is cleared as soon as
check_position breaks, and the frames are summed (Frame's Sum impl is a
running componentwise addition starting from silence). -/
def mixVoices (interp : Interpolation) :
    List (Option SamplePlayer) → Except Unit (Frame × List (Option SamplePlayer))
  | [] => Except.ok ((0, 0), [])
  | none :: rest => do
    let (f, vs) ← mixVoices interp rest
    pure (f, none :: vs)
  | some v :: rest =>
    match v.next interp with
    | Except.error _ => Except.error ()
    | Except.ok none => Except.error ()
    | Except.ok (some (fr, v')) => do
      let (f, vs) ← mixVoices interp rest
      pure (fr + f, (if v'.check_position then none else some v') :: vs)

/-- src/src/audio_processing/playback.rs: the next! macro — none once
is_done, otherwise the mixed frame of all voices followed by step(). -/
def PlaybackIter.next (css : SampleMetaData → ℕ → Note → ℚ) (interp : Interpolation)
    (song : Song) (st : PlaybackState) :
    Except Unit (Option (Frame × PlaybackState)) :=
  if st.is_done then
    Except.ok none
  else do
    let (out, voices') ← mixVoices interp st.voices
    match PlaybackIter.step css song { st with voices := voices' } with
    | none => Except.error ()
    | some st' => pure (some (out, st'))

/-!
src/simple-left-right/src/lib.rs + inner.rs, modelled as a sequential
protocol state machine.  The shared atomic state word's fields become
plain fields: write_ptr (the writer-local pointer), next_read (bit 4 of
the state word, toggled on publish), reader_exists (the access count
being 2).  Claims only concern reads taken between write-guard sessions,
so each guard session (WriteGuard::new, the apply_op calls, the drop/swap)
is one atomic step of the machine, and the acquire/release pairing of the
source justifies reading the protocol sequentially. -/

/-- The two buffers plus the protocol fields of Shared<T> and Writer<T,O>:
value_1/value_2 are the two Song copies, op_buffer is the writer's replay
queue. -/
structure LeftRight (T O : Type) where
  value_1 : T
  value_2 : T
  write_ptr : Bool
  next_read : Bool
  reader_exists : Bool
  op_buffer : List O

/-- inner.rs: Shared::get_value — Ptr::Value1 is false, Ptr::Value2 is
true. -/
def lrGetValue {T O : Type} (s : LeftRight T O) (ptr : Bool) : T :=
  if ptr then s.value_2 else s.value_1

/-- Writing through the UnsafeCell selected by a Ptr. -/
def lrSetValue {T O : Type} (s : LeftRight T O) (ptr : Bool) (v : T) : LeftRight T O :=
  if ptr then { s with value_2 := v } else { s with value_1 := v }

/-- lib.rs: Writer::new — both buffers hold clones of the initial value;
write_ptr = Value2; the state word starts as NOREAD_VALUE1_1ACCESS, i.e.
next read targets Value1 and no reader exists. -/
def Writer.new {T O : Type} (value : T) : LeftRight T O :=
  { value_1 := value
    value_2 := value
    write_ptr := true
    next_read := false
    reader_exists := false
    op_buffer := [] }

/-- lib.rs: WriteGuard::new — drains op_buffer, absorbing each queued
operation into the write-target buffer. -/
def WriteGuard.new {T O : Type} (absorb : T → O → T) (s : LeftRight T O) : LeftRight T O :=
  { lrSetValue s s.write_ptr (s.op_buffer.foldl absorb (lrGetValue s s.write_ptr)) with
    op_buffer := [] }

/-- lib.rs: WriteGuard::apply_op — with a reader, the operation is queued
and absorbed into the write target; without one, it is absorbed into both
buffers immediately and not stored. -/
def WriteGuard.apply_op {T O : Type} (absorb : T → O → T) (s : LeftRight T O)
    (operation : O) : LeftRight T O :=
  if s.reader_exists then
    { lrSetValue s s.write_ptr (absorb (lrGetValue s s.write_ptr) operation) with
      op_buffer := s.op_buffer ++ [operation] }
  else
    { s with
      value_1 := absorb s.value_1 operation
      value_2 := absorb s.value_2 operation }

/-- lib.rs: Writer::swap (run by WriteGuard::drop) — nothing happens if
no operation was applied; otherwise the read pointer bit is set to the
freshly written buffer and the writer switches its own pointer. -/
def Writer.swap {T O : Type} (s : LeftRight T O) : LeftRight T O :=
  if s.op_buffer.isEmpty then s
  else { s with next_read := s.write_ptr, write_ptr := !s.write_ptr }

/-- One complete write-guard session: acquire (drain), apply the batch,
drop (swap). -/
def guardSession {T O : Type} (absorb : T → O → T) (s : LeftRight T O)
    (batch : List O) : LeftRight T O :=
  Writer.swap (batch.foldl (WriteGuard.apply_op absorb) (WriteGuard.new absorb s))

/-- lib.rs: Writer::build_reader — mints the (single) reader when none
exists; the access count increment is the reader_exists flag. -/
def Writer.build_reader {T O : Type} (s : LeftRight T O) : LeftRight T O :=
  if s.reader_exists then s else { s with reader_exists := true }

/-- lib.rs: Reader::drop — the snapshot becomes unique again. -/
def Reader.drop_reader {T O : Type} (s : LeftRight T O) : LeftRight T O :=
  { s with reader_exists := false }

/-- lib.rs: Reader::lock — the fetch_update sets the read flag matching
the next_read pointer bit and hands out the buffer that bit selects; the
value observed is that buffer's contents. -/
def Reader.lock {T O : Type} (s : LeftRight T O) : T :=
  lrGetValue s s.next_read

/-- Editor-side events between which the audio thread may read: a whole
write-guard session, or minting/dropping the reader. -/
inductive LREvent (O : Type) where
  | session (batch : List O)
  | buildReader
  | dropReader

/-- One event step. -/
def lrStep {T O : Type} (absorb : T → O → T) (s : LeftRight T O) :
    LREvent O → LeftRight T O
  | .session batch => guardSession absorb s batch
  | .buildReader => Writer.build_reader s
  | .dropReader => Reader.drop_reader s

/-- Running a trace of editor events. -/
def lrRun {T O : Type} (absorb : T → O → T) (s : LeftRight T O) :
    List (LREvent O) → LeftRight T O
  | [] => s
  | e :: rest => lrRun absorb (lrStep absorb s e) rest

/-- The operations of all completed sessions of a trace, in order. -/
def lrBatches {O : Type} : List (LREvent O) → List O
  | [] => []
  | .session b :: rest => b ++ lrBatches rest
  | .buildReader :: rest => lrBatches rest
  | .dropReader :: rest => lrBatches rest

/-! Theorems. -/

/-- Unfolding lemma: next_pattern at an order slot holding a pattern
number returns that number without moving the order index. -/
lemma Song.next_pattern_number {s : Song} {o p : ℕ}
    (h : s.get_order o = PatternOrder.number p) : s.next_pattern o = (some p, o) := by
  rw [Song.next_pattern.eq_def]
  split
  · next heq => rw [h] at heq; cases heq; rfl
  · next heq => rw [h] at heq; cases heq
  · next heq => rw [h] at heq; cases heq

/-- The C3 failing input: order[0] = Number(0), every later order entry
EndOfSong, pattern 0 a one-row pattern. -/
def songC3 : Song :=
  { Song.default with
    pattern_order := PatternOrder.number 0 :: List.replicate 255 PatternOrder.endOfSong
    patterns := { rows := 1, data := [] } :: List.replicate 239 Pattern.default }

/-- The playback position produced by Order{idx: 0, loop: false} on
songC3. -/
def posC3 : PlaybackPosition :=
  { order := some 0, pattern := 0, row := 0, loop_active := false }

/-- C2: the claim says frames_per_tick(r, t) = r * 2 / t; the source
computes (r * 10) / t.  At r = 48000, t = 125 the code yields 3840 while
the claim (and the tempo field's own doc comment, tempo/2 ticks per
second) demands 768. -/
theorem C2_frames_per_tick_formula :
    PlaybackState.frames_per_tick 48000 125 = 3840 ∧
    48000 * 2 / 125 = 768 ∧ (3840 : ℕ) ≠ 768 := by
  refine ⟨?_, by norm_num, by norm_num⟩
  norm_num [PlaybackState.frames_per_tick]

/-- C3: on songC3 with start position posC3, the row advance following
pattern 0's last row returns Continue and reproduces posC3 exactly —
next_pattern leaves the order index at 0, so order[1] = EndOfSong is
never consulted, is_done is never set and pattern 0 replays forever; the
claim (and next_pattern's own doc comment, which promises to move the
order forward) demands that this very step terminate playback. -/
theorem C3_order_playback_never_terminates :
    PlaybackPosition.new (PlaybackSettings.order 0 false) songC3 = some posC3 ∧
    PlaybackPosition.step_row songC3 posC3 = some (ControlFlowU.Continue, posC3) ∧
    songC3.get_order 1 = PatternOrder.endOfSong := by
  have hget : songC3.get_order 0 = PatternOrder.number 0 := rfl
  have hnp : songC3.next_pattern 0 = (some 0, 0) := Song.next_pattern_number hget
  have hpat0 : songC3.patterns.get? 0 = some { rows := 1, data := [] } := rfl
  have hpat : songC3.patterns[0]? = some { rows := 1, data := [] } := by
    rw [← List.get?_eq_getElem?]
    exact hpat0
  refine ⟨?_, ?_, rfl⟩
  · simp [PlaybackPosition.new, hnp, posC3]
  · simp [PlaybackPosition.step_row, posC3, hpat, hnp, Pattern.row_count]

/-- Length of a freshly constructed mono sample. -/
lemma SampleQ.new_mono_len (d : List ℚ) :
    (SampleQ.new_mono d).len_with_pad = d.length + 2 * Sample.PAD_SIZE_EACH := by
  simp only [SampleQ.new_mono, SampleQ.len_with_pad, List.length_append,
    List.length_replicate, if_true]
  omega

/-- Length of a freshly constructed stereo sample (interleaved input). -/
lemma SampleQ.new_stereo_len (d : List ℚ) :
    (SampleQ.new_stereo_interpolated d).len_with_pad
      = d.length / 2 + 2 * Sample.PAD_SIZE_EACH := by
  simp only [SampleQ.new_stereo_interpolated, SampleQ.len_with_pad, List.length_append,
    List.length_replicate, if_false, Bool.false_eq_true]
  omega

/-- C8 counterexample: an input one frame longer than MAX_LENGTH still
constructs a padded sample — new_mono is total and performs no length
check, while the claim demands failure with SampleTooLarge. -/
theorem C8_counterexample :
    Sample.MAX_LENGTH < (List.replicate (Sample.MAX_LENGTH + 1) (0 : ℚ)).length ∧
    (SampleQ.new_mono (List.replicate (Sample.MAX_LENGTH + 1) (0 : ℚ))).len_with_pad
      = Sample.MAX_LENGTH + 1 + 2 * Sample.PAD_SIZE_EACH := by
  constructor
  · rw [List.length_replicate]
    omega
  · rw [SampleQ.new_mono_len, List.length_replicate]

/-- C8 (amended): sample construction never fails; for every input the
constructors return a sample with PAD_SIZE_EACH guard frames of silence
prepended and appended (MAX_LENGTH is declared in the source but never
enforced). -/
theorem C8_construction_pads_and_is_total (data : List ℚ) :
    (SampleQ.new_mono data).data
      = List.replicate Sample.PAD_SIZE_EACH 0 ++ data ++
        List.replicate Sample.PAD_SIZE_EACH 0 ∧
    (SampleQ.new_mono data).len_with_pad = data.length + 2 * Sample.PAD_SIZE_EACH ∧
    (SampleQ.new_stereo_interpolated data).data
      = List.replicate (2 * Sample.PAD_SIZE_EACH) 0 ++ data ++
        List.replicate (2 * Sample.PAD_SIZE_EACH) 0 ∧
    (SampleQ.new_stereo_interpolated data).len_with_pad
      = data.length / 2 + 2 * Sample.PAD_SIZE_EACH := by
  exact ⟨rfl, SampleQ.new_mono_len data, rfl, SampleQ.new_stereo_len data⟩

/-- On a pairwise-ordered list, a predicate closed downward along the
order holds on a prefix, so takeWhile and filter agree. -/
lemma takeWhile_eq_filter_of_pairwise {α : Type} {R : α → α → Prop} {p : α → Bool}
    {l : List α} (hl : l.Pairwise R)
    (hcl : ∀ a b, R a b → p b = true → p a = true) :
    l.takeWhile p = l.filter p := by
  induction l with
  | nil => rfl
  | cons a t ih =>
    rcases List.pairwise_cons.mp hl with ⟨ha, ht⟩
    by_cases hpa : p a = true
    · simp only [List.takeWhile_cons, List.filter_cons, hpa, if_true]
      rw [ih ht]
    · have hpa' : p a = false := Bool.eq_false_iff.mpr hpa
      have hall : ∀ b ∈ t, ¬p b = true := by
        intro b hb hbt
        exact hpa (hcl a b (ha b hb) hbt)
      simp only [List.takeWhile_cons, List.filter_cons, hpa']
      simp only [Bool.false_eq_true, if_false]
      symm
      rw [List.filter_eq_nil_iff]
      exact hall

/-- Dual statement: dropping the maximal true prefix of a predicate
closed upward-negatively along the order leaves exactly the elements
where the predicate fails. -/
lemma dropWhile_eq_filter_not_of_pairwise {α : Type} {R : α → α → Prop} {p : α → Bool}
    {l : List α} (hl : l.Pairwise R)
    (hcl : ∀ a b, R a b → p a = false → p b = false) :
    l.dropWhile p = l.filter (fun x => !p x) := by
  induction l with
  | nil => rfl
  | cons a t ih =>
    rcases List.pairwise_cons.mp hl with ⟨ha, ht⟩
    by_cases hpa : p a = true
    · simp only [List.dropWhile_cons, hpa, if_true, List.filter_cons, Bool.not_eq_true',
        Bool.not_true]
      simp only [Bool.false_eq_true, if_false]
      exact ih ht
    · have hpa' : p a = false := Bool.eq_false_iff.mpr hpa
      have hall : ∀ b ∈ t, p b = false := fun b hb => hcl a b (ha b hb) hpa'
      simp only [List.dropWhile_cons, hpa', List.filter_cons, Bool.not_false,
        Bool.false_eq_true, if_false, if_true]
      congr 1
      symm
      rw [List.filter_eq_self]
      intro b hb
      simp [hall b hb]

/-- Dropping the partition point of a partitioned predicate is dropWhile. -/
lemma drop_partition_point {α : Type} (p : α → Bool) (l : List α) :
    l.drop (partition_point p l) = l.dropWhile p := by
  unfold partition_point
  have h := List.takeWhile_append_dropWhile (p := p) (l := l)
  calc l.drop (l.takeWhile p).length
      = (l.takeWhile p ++ l.dropWhile p).drop (l.takeWhile p).length := by rw [h]
    _ = l.dropWhile p := List.drop_left _ _

/-- Taking up to the partition point of a partitioned predicate is
takeWhile. -/
lemma take_partition_point {α : Type} (p : α → Bool) (l : List α) :
    l.take (partition_point p l) = l.takeWhile p := by
  unfold partition_point
  have h := List.takeWhile_append_dropWhile (p := p) (l := l)
  calc l.take (l.takeWhile p).length
      = (l.takeWhile p ++ l.dropWhile p).take (l.takeWhile p).length := by rw [h]
    _ = l.takeWhile p := List.take_left _ _

/-- Comparison against the first slot of a row reduces to a row
comparison. -/
lemma ltb_row_zero (a : InPatternPosition) (r : ℕ) :
    a.ltb { row := r, channel := 0 } = decide (a.row < r) := by
  simp [InPatternPosition.ltb, InPatternPosition.lt]

/-- The lexicographic order is monotone in the row. -/
lemma InPatternPosition.lt_row_le {a b : InPatternPosition} (h : a.lt b) :
    a.row ≤ b.row := by
  unfold InPatternPosition.lt at h
  omega

/-- C9: on a pattern whose event sequence is strictly sorted by position
with all rows in range, the row-index slice is exactly the events of that
row, with strictly increasing channels. -/
theorem C9_pattern_row_slice (p : Pattern) (r : ℕ)
    (hsorted : p.data.Pairwise fun a b => a.1.lt b.1)
    (hrows : ∀ e ∈ p.data, e.1.row < p.rows)
    (hr : r < p.rows) :
    p.index r = p.data.filter (fun e => decide (e.1.row = r)) ∧
    (p.index r).Pairwise fun a b => a.1.channel < b.1.channel := by
  have hp1 : (fun e : InPatternPosition × NoteEvent =>
      e.1.ltb { row := r, channel := 0 }) = fun e => decide (e.1.row < r) := by
    funext e
    exact ltb_row_zero e.1 r
  have hp2 : (fun e : InPatternPosition × NoteEvent =>
      e.1.ltb { row := r + 1, channel := 0 }) = fun e => decide (e.1.row < r + 1) := by
    funext e
    exact ltb_row_zero e.1 (r + 1)
  have hidx : p.index r
      = (p.data.dropWhile fun e => decide (e.1.row < r)).takeWhile
          fun e => decide (e.1.row < r + 1) := by
    simp only [Pattern.index, hp1, hp2, Nat.add_sub_cancel]
    rw [take_partition_point, drop_partition_point]
  have hdw : (p.data.dropWhile fun e => decide (e.1.row < r))
      = p.data.filter fun e => !decide (e.1.row < r) := by
    refine dropWhile_eq_filter_not_of_pairwise hsorted ?_
    intro a b hR hpa
    have := InPatternPosition.lt_row_le hR
    simp only [decide_eq_false_iff_not] at hpa ⊢
    omega
  have htw : ((p.data.filter fun e => !decide (e.1.row < r)).takeWhile
        fun e => decide (e.1.row < r + 1))
      = (p.data.filter fun e => !decide (e.1.row < r)).filter
          fun e => decide (e.1.row < r + 1) := by
    refine takeWhile_eq_filter_of_pairwise (hsorted.filter _) ?_
    intro a b hR hpb
    have := InPatternPosition.lt_row_le hR
    simp only [decide_eq_true_eq] at hpb ⊢
    omega
  have hfilter : ((p.data.filter fun e => !decide (e.1.row < r)).filter
        fun e => decide (e.1.row < r + 1))
      = p.data.filter fun e => decide (e.1.row = r) := by
    rw [List.filter_filter]
    refine List.filter_congr ?_
    intro e _
    by_cases h : e.1.row = r
    · simp [h]
    · by_cases h2 : e.1.row < r
      · simp [h, h2]
      · simp [h, h2]
        omega
  have heq : p.index r = p.data.filter fun e => decide (e.1.row = r) := by
    rw [hidx, hdw, htw, hfilter]
  refine ⟨heq, ?_⟩
  rw [heq]
  have hpw : (p.data.filter fun e => decide (e.1.row = r)).Pairwise
      fun a b => a.1.lt b.1 := hsorted.filter _
  refine List.Pairwise.imp_of_mem ?_ hpw
  intro a b ha hb hab
  have hra : a.1.row = r := by
    have := List.of_mem_filter ha
    simpa using this
  have hrb : b.1.row = r := by
    have := List.of_mem_filter hb
    simpa using this
  unfold InPatternPosition.lt at hab
  omega

/-- C10: set_length with a legal new length truncates exactly the events
whose row is out of range; when the pattern does not shrink no event is
touched. -/
theorem C10_set_length_truncates (p : Pattern) (new_len : ℕ)
    (hsorted : p.data.Pairwise fun a b => a.1.lt b.1)
    (hrows : ∀ e ∈ p.data, e.1.row < p.rows)
    (hlen : new_len ≤ Pattern.MAX_ROWS) :
    ∃ q, p.set_length new_len = some q ∧ q.rows = new_len ∧
      q.data = p.data.filter (fun e => decide (e.1.row < new_len)) ∧
      (p.rows ≤ new_len → q.data = p.data) := by
  unfold Pattern.set_length
  rw [if_pos hlen]
  by_cases hcase : new_len < p.rows
  · rw [if_pos hcase]
    refine ⟨_, rfl, rfl, ?_, ?_⟩
    · rw [take_partition_point]
      refine takeWhile_eq_filter_of_pairwise hsorted ?_
      intro a b hR hpb
      have := InPatternPosition.lt_row_le hR
      simp only [decide_eq_true_eq] at hpb ⊢
      omega
    · intro hge
      omega
  · rw [if_neg hcase]
    refine ⟨_, rfl, rfl, ?_, fun _ => rfl⟩
    symm
    rw [List.filter_eq_self]
    intro e he
    have := hrows e he
    simp only [decide_eq_true_eq]
    omega

/-- A concrete note event for the witnesses. -/
def ev0 : NoteEvent :=
  { note := { val := 60 }
    sample_instr := 0
    vol := { tag := 0, arg := 0 }
    command := { tag := 0, arg := 0 } }

/-- A concrete sorted two-row pattern for the witnesses. -/
def pat9 : Pattern :=
  { rows := 2
    data := [({ row := 0, channel := 0 }, ev0), ({ row := 0, channel := 2 }, ev0),
      ({ row := 1, channel := 1 }, ev0)] }

/-- Witness for C9 at the concrete pattern pat9 and row 0. -/
theorem C9_pattern_row_slice_witness :
    ((pat9.data.Pairwise fun a b => a.1.lt b.1) ∧
      (∀ e ∈ pat9.data, e.1.row < pat9.rows) ∧ 0 < pat9.rows) ∧
    (pat9.index 0 = pat9.data.filter (fun e => decide (e.1.row = 0)) ∧
      (pat9.index 0).Pairwise fun a b => a.1.channel < b.1.channel) :=
  ⟨⟨by decide, by decide, by decide⟩,
    C9_pattern_row_slice pat9 0 (by decide) (by decide) (by decide)⟩

/-- Witness for C10 at the concrete pattern pat9 and new length 1. -/
theorem C10_set_length_truncates_witness :
    ((pat9.data.Pairwise fun a b => a.1.lt b.1) ∧
      (∀ e ∈ pat9.data, e.1.row < pat9.rows) ∧ 1 ≤ Pattern.MAX_ROWS) ∧
    (∃ q, pat9.set_length 1 = some q ∧ q.rows = 1 ∧
      q.data = pat9.data.filter (fun e => decide (e.1.row < 1)) ∧
      (pat9.rows ≤ 1 → q.data = pat9.data)) :=
  ⟨⟨by decide, by decide, by decide⟩,
    C10_set_length_truncates pat9 1 (by decide) (by decide) (by decide)⟩

/-- The precondition exactly as claim C5 states it (spec wording):
SetLength allows new_len ≤ 200 and SetEvent requires channel < 64.  Kept
separate from the code's validation so the two can be compared. -/
def SongOperation.claimed_precondition (song : Song) : SongOperation → Prop
  | .setVolume c _ => c < 64
  | .setPan c _ => c < 64
  | .setSample i _ _ => i < 236
  | .removeSample i => i < 236
  | .patternOperation i pop =>
    i < 240 ∧ (match pop with
      | .setLength n => n ≤ 200
      | .setEvent pos _ =>
        (∀ pat, song.patterns.get? i = some pat → pos.row < pat.rows) ∧ pos.channel < 64
      | .removeEvent _ => True)
  | .setOrder i _ => i < 256
  | .setInitialSpeed _ => True
  | .setInitialTempo _ => True
  | .setGlobalVol _ => True

/-- The precondition the code actually enforces (the amended claim):
SetLength requires new_len < 200 (strict) and SetEvent accepts
channel ≤ 64 (non-strict). -/
def SongOperation.precondition (song : Song) : SongOperation → Prop
  | .setVolume c _ => c < Song.MAX_CHANNELS
  | .setPan c _ => c < Song.MAX_CHANNELS
  | .setSample i _ _ => i < Song.MAX_SAMPLES_INSTR
  | .removeSample i => i < Song.MAX_SAMPLES_INSTR
  | .patternOperation i pop =>
    i < Song.MAX_PATTERNS ∧ (match pop with
      | .setLength n => n < Pattern.MAX_ROWS
      | .setEvent pos _ =>
        (∀ pat, song.patterns.get? i = some pat → pos.row < pat.rows) ∧
          pos.channel ≤ Song.MAX_CHANNELS
      | .removeEvent _ => True)
  | .setOrder i _ => i < Song.MAX_ORDERS
  | .setInitialSpeed _ => True
  | .setInitialTempo _ => True
  | .setGlobalVol _ => True

/-- C5 counterexample: SetLength(200) on pattern 0 of the default song
satisfies the claim's precondition (200 ≤ 200) but the code rejects it —
operation_is_valid demands new_len < MAX_ROWS strictly. -/
theorem C5_counterexample :
    SongOperation.claimed_precondition Song.default
      (SongOperation.patternOperation 0 (PatternOperation.setLength 200)) ∧
    (SongEdit.apply_operation Song.default { samples := [] }
        (SongOperation.patternOperation 0 (PatternOperation.setLength 200))).1
      = Except.error (SongOperation.patternOperation 0 (PatternOperation.setLength 200)) := by
  constructor
  · refine ⟨by omega, by omega⟩
  · rfl

/-- The Result component of apply_operation is Err(op) exactly when the
validation flag is false. -/
lemma apply_operation_error_iff (song : Song) (gc : Collector) (op : SongOperation) :
    (SongEdit.apply_operation song gc op).1 = Except.error op ↔
      op.is_valid song = false := by
  unfold SongEdit.apply_operation ValidOperation.new
  cases hv : op.is_valid song
  · simp
  · cases op <;> simp

/-- The validation flag agrees with the amended precondition on songs
with the full 240-pattern array. -/
lemma is_valid_iff_precondition (song : Song) (op : SongOperation)
    (hlen : song.patterns.length = Song.MAX_PATTERNS) :
    op.is_valid song = true ↔ op.precondition song := by
  cases op with
  | setVolume c v => simp [SongOperation.is_valid, SongOperation.precondition]
  | setPan c v => simp [SongOperation.is_valid, SongOperation.precondition]
  | setSample i m s => simp [SongOperation.is_valid, SongOperation.precondition]
  | removeSample i => simp [SongOperation.is_valid, SongOperation.precondition]
  | setOrder i o => simp [SongOperation.is_valid, SongOperation.precondition]
  | setInitialSpeed s => simp [SongOperation.is_valid, SongOperation.precondition]
  | setInitialTempo t => simp [SongOperation.is_valid, SongOperation.precondition]
  | setGlobalVol v => simp [SongOperation.is_valid, SongOperation.precondition]
  | patternOperation i pop =>
    cases hgp : song.patterns.get? i with
    | none =>
      have hge : song.patterns.length ≤ i := List.get?_eq_none.mp hgp
      simp only [SongOperation.is_valid, SongOperation.precondition, hgp]
      constructor
      · intro h
        cases h
      · intro h
        omega
    | some pat =>
      have hlt : i < song.patterns.length := by
        by_contra hge
        rw [List.get?_eq_none.mpr (le_of_not_lt hge)] at hgp
        cases hgp
      simp only [SongOperation.is_valid, SongOperation.precondition, hgp]
      cases pop with
      | setLength n =>
        simp only [Pattern.operation_is_valid, decide_eq_true_eq]
        constructor
        · intro h
          exact ⟨by omega, h⟩
        · intro h
          exact h.2
      | setEvent pos ev =>
        simp only [Pattern.operation_is_valid, Bool.and_eq_true, decide_eq_true_eq]
        constructor
        · rintro ⟨h1, h2⟩
          refine ⟨by omega, ?_, h2⟩
          intro pat' hpat'
          cases hpat'
          exact h1
        · rintro ⟨_, h1, h2⟩
          exact ⟨h1 pat rfl, h2⟩
      | removeEvent pos =>
        simp only [Pattern.operation_is_valid]
        constructor
        · intro _
          exact ⟨by omega, trivial⟩
        · intro _
          trivial

/-- C5 (amended): with the full pattern array, apply_operation rejects an
operation exactly when it violates the code's precondition (SetLength
new_len < 200, SetEvent channel ≤ 64, the remaining bounds as the claim
states them); a rejected operation is returned unchanged and neither the
song nor the collector is modified. -/
theorem C5_validation_exact (song : Song) (gc : Collector) (op : SongOperation)
    (hlen : song.patterns.length = Song.MAX_PATTERNS) :
    ((SongEdit.apply_operation song gc op).1 = Except.error op ↔
      ¬ op.precondition song) ∧
    (∀ e, (SongEdit.apply_operation song gc op).1 = Except.error e → e = op) ∧
    (¬ op.precondition song →
      SongEdit.apply_operation song gc op = (Except.error op, some song, gc)) := by
  have herr := apply_operation_error_iff song gc op
  have hiff := is_valid_iff_precondition song op hlen
  refine ⟨?_, ?_, ?_⟩
  · rw [herr]
    rw [← hiff]
    simp
  · intro e he
    unfold SongEdit.apply_operation ValidOperation.new at he
    cases hv : op.is_valid song
    · rw [hv] at he
      simp at he
      exact he.symm
    · rw [hv] at he
      cases op <;> simp at he
  · intro hnp
    have hv : op.is_valid song = false := by
      rw [← hiff] at hnp
      exact Bool.eq_false_iff.mpr hnp
    unfold SongEdit.apply_operation ValidOperation.new
    rw [hv]
    simp

/-- Witness for C5 (amended) at a concrete rejected operation: SetVolume
on channel 64 of the default song. -/
theorem C5_validation_exact_witness :
    Song.default.patterns.length = Song.MAX_PATTERNS ∧
    (((SongEdit.apply_operation Song.default { samples := [] }
          (SongOperation.setVolume 64 0)).1
        = Except.error (SongOperation.setVolume 64 0) ↔
      ¬ (SongOperation.setVolume 64 0).precondition Song.default) ∧
    (∀ e, (SongEdit.apply_operation Song.default { samples := [] }
          (SongOperation.setVolume 64 0)).1 = Except.error e →
        e = SongOperation.setVolume 64 0) ∧
    (¬ (SongOperation.setVolume 64 0).precondition Song.default →
      SongEdit.apply_operation Song.default { samples := [] }
          (SongOperation.setVolume 64 0)
        = (Except.error (SongOperation.setVolume 64 0), some Song.default,
            { samples := [] }))) :=
  ⟨by simp [Song.default], C5_validation_exact Song.default { samples := [] }
    (SongOperation.setVolume 64 0) (by simp [Song.default])⟩

/-- Frame lookup succeeds strictly below len_with_pad (for stereo data
the two interleaved reads stay below the raw data length). -/
lemma SampleQ.index_isSome {s : SampleQ} {i : ℕ} (h : i + 1 < s.len_with_pad) :
    ∃ fr, s.index i = some fr := by
  unfold SampleQ.index
  unfold SampleQ.len_with_pad at h
  cases hm : s.mono with
  | true =>
    rw [hm] at h
    simp only [if_true] at h
    simp only [if_true]
    have hi : i < s.data.length := by omega
    have h' := List.get?_eq_get hi
    exact ⟨_, by rw [h']; rfl⟩
  | false =>
    rw [hm] at h
    simp only [Bool.false_eq_true, if_false] at h
    simp only [Bool.false_eq_true, if_false]
    have h1 : i * 2 < s.data.length := by omega
    have h2 : i * 2 + 1 < s.data.length := by omega
    have e1 := List.get?_eq_get h1
    have e2 := List.get?_eq_get h2
    exact ⟨_, by rw [e1, e2]; rfl⟩

/-- Under the phase invariant both interpolation kernels find their taps:
the computation never reaches the out-of-bounds panic. -/
lemma SamplePlayer.compute_some (p : SamplePlayer) (interp : Interpolation)
    (hpos : p.pos + Sample.PAD_SIZE_EACH ≤ p.sample.len_with_pad) :
    ∃ fr, p.computeFrame interp = some fr := by
  unfold SamplePlayer.computeFrame
  have hPAD : Sample.PAD_SIZE_EACH = 4 := rfl
  have h0 : p.pos + 1 < p.sample.len_with_pad := by omega
  have h1 : (p.pos + 1) + 1 < p.sample.len_with_pad := by omega
  rcases SampleQ.index_isSome h0 with ⟨a, ha⟩
  rcases SampleQ.index_isSome h1 with ⟨b, hb⟩
  cases interp with
  | nearest =>
    unfold SamplePlayer.compute_nearest
    by_cases hf : p.frac < 1/2
    · rw [if_pos hf]
      exact ⟨a, ha⟩
    · rw [if_neg hf]
      exact ⟨b, hb⟩
  | linear =>
    unfold SamplePlayer.compute_linear
    rw [ha, hb]
    exact ⟨_, rfl⟩

/-- Truncation of a non-negative rational is its floor. -/
lemma ratTrunc_of_nonneg {q : ℚ} (h : 0 ≤ q) : ratTrunc q = ⌊q⌋ := if_pos h

/-- C7: a player whose phase satisfies the invariant (int_pos at most
len_with_pad − PAD, frac in [0,1), non-negative step) reads only the taps
int_pos and int_pos + 1, both strictly inside the buffer, returns a frame
and the stepped state; the stepped phase has frac in [0,1) again, and its
integer part either still satisfies the invariant or the very next call
reports the voice done. -/
theorem C7_interpolation_in_bounds (p : SamplePlayer) (interp : Interpolation)
    (hfrac0 : 0 ≤ p.frac) (hfrac1 : p.frac < 1) (hstep : 0 ≤ p.step_size)
    (hpos : p.pos + Sample.PAD_SIZE_EACH ≤ p.sample.len_with_pad) :
    p.pos + 1 < p.sample.len_with_pad ∧
    (∃ fr, p.next interp = Except.ok (some (fr, p.step))) ∧
    0 ≤ p.step.frac ∧ p.step.frac < 1 ∧
    (p.step.pos + Sample.PAD_SIZE_EACH ≤ p.sample.len_with_pad ∨
      p.step.next interp = Except.ok none) := by
  have hPAD : Sample.PAD_SIZE_EACH = 4 := rfl
  have halive : p.check_position = false := by
    unfold SamplePlayer.check_position
    simp only [decide_eq_false_iff_not, not_lt]
    omega
  rcases SamplePlayer.compute_some p interp hpos with ⟨fr, hfr⟩
  have hnext : p.next interp = Except.ok (some (fr, p.step)) := by
    unfold SamplePlayer.next
    rw [halive]
    simp only [Bool.false_eq_true, if_false]
    rw [hfr]
  have hf0 : (0 : ℚ) ≤ p.frac + p.step_size := by linarith
  have hfracstep : p.step.frac = Int.fract (p.frac + p.step_size) := by
    simp only [SamplePlayer.step]
    rw [ratTrunc_of_nonneg hf0]
    rw [Int.fract]
  have hsample : p.step.sample = p.sample := rfl
  refine ⟨by omega, ⟨fr, hnext⟩, ?_, ?_, ?_⟩
  · rw [hfracstep]
    exact Int.fract_nonneg _
  · rw [hfracstep]
    exact Int.fract_lt_one _
  · by_cases hinv : p.step.pos + Sample.PAD_SIZE_EACH ≤ p.sample.len_with_pad
    · exact Or.inl hinv
    · refine Or.inr ?_
      have hdone : p.step.check_position = true := by
        unfold SamplePlayer.check_position
        rw [hsample]
        simp only [decide_eq_true_eq]
        omega
      unfold SamplePlayer.next
      rw [hdone]
      rfl

/-- A concrete mono sample with a single non-silent frame, for the
witnesses: payload [1], so len_with_pad = 9. -/
def sample1 : SampleQ := SampleQ.new_mono [1]

/-- Concrete sample metadata for the witnesses. -/
def meta1 : SampleMetaData :=
  { default_volume := 64
    global_volume := 64
    default_pan := none
    vibrato_speed := 0
    vibrato_depth := 0
    vibrato_rate := 0
    vibrato_waveform := VibratoWave.sine
    sample_rate := 48000
    base_note := { val := 60 } }

/-- A concrete player at the start of sample1 with step size 1. -/
def player1 : SamplePlayer :=
  { sample := sample1
    meta := meta1
    note := { val := 60 }
    pos := Sample.PAD_SIZE_EACH
    frac := 0
    out_rate := 48000
    step_size := 1 }

/-- Witness for C7 at player1 with the nearest kernel. -/
theorem C7_interpolation_in_bounds_witness :
    ((0 : ℚ) ≤ player1.frac ∧ player1.frac < 1 ∧ (0 : ℚ) ≤ player1.step_size ∧
      player1.pos + Sample.PAD_SIZE_EACH ≤ player1.sample.len_with_pad) ∧
    (player1.pos + 1 < player1.sample.len_with_pad ∧
    (∃ fr, player1.next Interpolation.nearest = Except.ok (some (fr, player1.step))) ∧
    0 ≤ player1.step.frac ∧ player1.step.frac < 1 ∧
    (player1.step.pos + Sample.PAD_SIZE_EACH ≤ player1.sample.len_with_pad ∨
      player1.step.next Interpolation.nearest = Except.ok none)) :=
  ⟨⟨by norm_num [player1], by norm_num [player1], by norm_num [player1],
      by norm_num [player1, sample1, SampleQ.new_mono, SampleQ.len_with_pad,
        Sample.PAD_SIZE_EACH]⟩,
    C7_interpolation_in_bounds player1 Interpolation.nearest
      (by norm_num [player1]) (by norm_num [player1]) (by norm_num [player1])
      (by norm_num [player1, sample1, SampleQ.new_mono, SampleQ.len_with_pad,
        Sample.PAD_SIZE_EACH])⟩

/-- SamplePlayer::new with the step size taken as a parameter: the
constructor sets phase = (PAD_SIZE_EACH, 0.0) and stores the computed
step size (compute_step_size is strictly positive f32 arithmetic,
quantified as s in the claims). -/
def playerStart (smp : SampleQ) (m : SampleMetaData) (n : Note) (r : ℕ) (s : ℚ) :
    SamplePlayer :=
  { sample := smp
    meta := m
    note := n
    pos := Sample.PAD_SIZE_EACH
    frac := 0
    out_rate := r
    step_size := s }

/-- The closed form of the player state after k productive calls: the
integer position has advanced by floor(k*s) and the fraction is the
fractional part of k*s. -/
def playerPhase (smp : SampleQ) (m : SampleMetaData) (n : Note) (r : ℕ) (s : ℚ)
    (k : ℕ) : SamplePlayer :=
  { sample := smp
    meta := m
    note := n
    pos := Sample.PAD_SIZE_EACH + (⌊(k : ℚ) * s⌋).toNat
    frac := Int.fract ((k : ℚ) * s)
    out_rate := r
    step_size := s }

lemma playerPhase_zero (smp : SampleQ) (m : SampleMetaData) (n : Note) (r : ℕ) (s : ℚ) :
    playerPhase smp m n r s 0 = playerStart smp m n r s := by
  simp [playerPhase, playerStart]

/-- While floor(k*s) has not passed the payload length, the phase-k
player is alive, its kernel finds its taps, and stepping it gives the
phase-(k+1) player. -/
lemma playerPhase_step (smp : SampleQ) (m : SampleMetaData) (n : Note) (r : ℕ)
    {s : ℚ} {L : ℕ} (interp : Interpolation) (hs : 0 < s)
    (hlen : smp.len_with_pad = L + 2 * Sample.PAD_SIZE_EACH) (k : ℕ)
    (halive : ⌊(k : ℚ) * s⌋ ≤ (L : ℤ)) :
    (playerPhase smp m n r s k).check_position = false ∧
    (playerPhase smp m n r s k).step = playerPhase smp m n r s (k + 1) ∧
    ∃ fr, (playerPhase smp m n r s k).computeFrame interp = some fr := by
  have hPAD : Sample.PAD_SIZE_EACH = 4 := rfl
  have hknn : (0 : ℚ) ≤ (k : ℚ) * s := by positivity
  have hfl0 : (0 : ℤ) ≤ ⌊(k : ℚ) * s⌋ := Int.floor_nonneg.mpr hknn
  have hmono : ⌊(k : ℚ) * s⌋ ≤ ⌊((k + 1 : ℕ) : ℚ) * s⌋ := by
    apply Int.floor_le_floor
    have : ((k : ℚ)) ≤ ((k + 1 : ℕ) : ℚ) := by push_cast; linarith
    nlinarith
  refine ⟨?_, ?_, ?_⟩
  · unfold SamplePlayer.check_position
    simp only [playerPhase, decide_eq_false_iff_not, not_lt, hlen, hPAD]
    omega
  · have hf0 : (0 : ℚ) ≤ Int.fract ((k : ℚ) * s) + s := by
      have := Int.fract_nonneg ((k : ℚ) * s)
      linarith
    have hfeq : Int.fract ((k : ℚ) * s) + s
        = ((k + 1 : ℕ) : ℚ) * s - (⌊(k : ℚ) * s⌋ : ℚ) := by
      rw [Int.fract]
      push_cast
      ring
    have htr : ratTrunc (Int.fract ((k : ℚ) * s) + s)
        = ⌊((k + 1 : ℕ) : ℚ) * s⌋ - ⌊(k : ℚ) * s⌋ := by
      rw [ratTrunc_of_nonneg hf0, hfeq, Int.floor_sub_int]
    simp only [SamplePlayer.step, playerPhase, htr, SamplePlayer.mk.injEq]
    refine ⟨trivial, trivial, trivial, ?_, ?_, trivial, trivial⟩
    · omega
    · rw [hfeq]
      rw [Int.fract]
      push_cast
      ring
  · apply SamplePlayer.compute_some
    simp only [playerPhase, hlen, hPAD]
    omega

/-- Alive phase states produce a frame and advance to the next phase. -/
lemma playerPhase_next_some (smp : SampleQ) (m : SampleMetaData) (n : Note) (r : ℕ)
    {s : ℚ} {L : ℕ} (interp : Interpolation) (hs : 0 < s)
    (hlen : smp.len_with_pad = L + 2 * Sample.PAD_SIZE_EACH) (k : ℕ)
    (halive : ⌊(k : ℚ) * s⌋ ≤ (L : ℤ)) :
    ∃ fr, SamplePlayer.next interp (playerPhase smp m n r s k)
      = Except.ok (some (fr, playerPhase smp m n r s (k + 1))) := by
  rcases playerPhase_step smp m n r interp hs hlen k halive with ⟨hcheck, hstep, fr, hfr⟩
  refine ⟨fr, ?_⟩
  unfold SamplePlayer.next
  rw [hcheck]
  simp only [Bool.false_eq_true, if_false]
  rw [hfr, hstep]

lemma playerPhase_advance_eq (smp : SampleQ) (m : SampleMetaData) (n : Note) (r : ℕ)
    {s : ℚ} {L : ℕ} (interp : Interpolation) (hs : 0 < s)
    (hlen : smp.len_with_pad = L + 2 * Sample.PAD_SIZE_EACH) (k : ℕ)
    (halive : ⌊(k : ℚ) * s⌋ ≤ (L : ℤ)) :
    SamplePlayer.advance interp (playerPhase smp m n r s k)
      = playerPhase smp m n r s (k + 1) := by
  rcases playerPhase_next_some smp m n r interp hs hlen k halive with ⟨fr, hnext⟩
  unfold SamplePlayer.advance
  rw [hnext]

/-- While every earlier call was alive, iterating the player from the
start reaches exactly the phase-k state. -/
lemma playerIterate (smp : SampleQ) (m : SampleMetaData) (n : Note) (r : ℕ)
    {s : ℚ} {L : ℕ} (interp : Interpolation) (hs : 0 < s)
    (hlen : smp.len_with_pad = L + 2 * Sample.PAD_SIZE_EACH) (k : ℕ)
    (hall : ∀ j < k, ⌊(j : ℚ) * s⌋ ≤ (L : ℤ)) :
    (SamplePlayer.advance interp)^[k] (playerStart smp m n r s)
      = playerPhase smp m n r s k := by
  induction k with
  | zero => simp [playerPhase_zero]
  | succ k ih =>
    rw [Function.iterate_succ_apply']
    rw [ih (fun j hj => hall j (by omega))]
    exact playerPhase_advance_eq smp m n r interp hs hlen k (hall k (by omega))

/-- A player whose call reports done is a fixed point of advance. -/
lemma advance_of_done {interp : Interpolation} {q : SamplePlayer}
    (h : SamplePlayer.next interp q = Except.ok none) :
    SamplePlayer.advance interp q = q := by
  unfold SamplePlayer.advance
  rw [h]

/-- C6: for a sample of payload length L (len_with_pad = L + 2*PAD) and a
player starting at phase (PAD, 0) with step size s > 0, the first
floor(L/s) + 1 calls all return a frame (so at least floor(L/s) calls
return Some), and from some call index on every call returns none. -/
theorem C6_voice_exhaustion (smp : SampleQ) (m : SampleMetaData) (n : Note) (r : ℕ)
    (L : ℕ) (s : ℚ) (interp : Interpolation)
    (hlen : smp.len_with_pad = L + 2 * Sample.PAD_SIZE_EACH) (hs : 0 < s) :
    (∀ k : ℕ, k ≤ (⌊(L : ℚ) / s⌋).toNat →
      ∃ fr p', SamplePlayer.next interp
          ((SamplePlayer.advance interp)^[k] (playerStart smp m n r s))
        = Except.ok (some (fr, p'))) ∧
    (∃ N : ℕ, ∀ k : ℕ, N ≤ k →
      SamplePlayer.next interp
          ((SamplePlayer.advance interp)^[k] (playerStart smp m n r s))
        = Except.ok none) := by
  have hPAD : Sample.PAD_SIZE_EACH = 4 := rfl
  have hsne : s ≠ 0 := ne_of_gt hs
  constructor
  · intro k hk
    have hkq : (k : ℚ) ≤ (L : ℚ) / s := by
      have h1 : (k : ℤ) ≤ ⌊(L : ℚ) / s⌋ := by
        have h0 : (0 : ℤ) ≤ ⌊(L : ℚ) / s⌋ := by
          apply Int.floor_nonneg.mpr
          positivity
        omega
      exact_mod_cast Int.le_floor.mp h1
    have halive : ∀ j ≤ k, ⌊(j : ℚ) * s⌋ ≤ (L : ℤ) := by
      intro j hj
      have hjq : (j : ℚ) * s ≤ (L : ℚ) := by
        have hjk : (j : ℚ) ≤ (k : ℚ) := by exact_mod_cast hj
        have h2 : (j : ℚ) * s ≤ ((L : ℚ) / s) * s := by
          apply mul_le_mul_of_nonneg_right _ (le_of_lt hs)
          linarith
        rwa [div_mul_cancel₀ _ hsne] at h2
      calc ⌊(j : ℚ) * s⌋ ≤ ⌊(L : ℚ)⌋ := Int.floor_le_floor hjq
        _ = (L : ℤ) := Int.floor_natCast L
    rw [playerIterate smp m n r interp hs hlen k (fun j hj => halive j (by omega))]
    rcases playerPhase_next_some smp m n r interp hs hlen k (halive k le_rfl) with ⟨fr, h⟩
    exact ⟨fr, _, h⟩
  · have hex : ∃ k : ℕ, (L : ℤ) < ⌊(k : ℚ) * s⌋ := by
      refine ⟨(⌈((L : ℚ) + 1) / s⌉).toNat, ?_⟩
      have hx : ((L : ℚ) + 1) / s ≤ ((⌈((L : ℚ) + 1) / s⌉).toNat : ℚ) := by
        calc ((L : ℚ) + 1) / s ≤ (⌈((L : ℚ) + 1) / s⌉ : ℚ) := Int.le_ceil _
          _ ≤ ((⌈((L : ℚ) + 1) / s⌉).toNat : ℚ) := by
            exact_mod_cast Int.cast_le.mpr (Int.self_le_toNat _)
      have hmul : (L : ℚ) + 1 ≤ ((⌈((L : ℚ) + 1) / s⌉).toNat : ℚ) * s := by
        have h2 := mul_le_mul_of_nonneg_right hx (le_of_lt hs)
        rwa [div_mul_cancel₀ _ hsne] at h2
      have : ((L : ℤ) + 1) ≤ ⌊((⌈((L : ℚ) + 1) / s⌉).toNat : ℚ) * s⌋ := by
        apply Int.le_floor.mpr
        push_cast
        linarith
      omega
    classical
    let K := Nat.find hex
    have hK : (L : ℤ) < ⌊(K : ℚ) * s⌋ := Nat.find_spec hex
    have hKmin : ∀ j < K, ⌊(j : ℚ) * s⌋ ≤ (L : ℤ) := by
      intro j hj
      have := Nat.find_min hex hj
      omega
    have hiter : (SamplePlayer.advance interp)^[K] (playerStart smp m n r s)
        = playerPhase smp m n r s K :=
      playerIterate smp m n r interp hs hlen K hKmin
    have hdead : SamplePlayer.next interp (playerPhase smp m n r s K)
        = Except.ok none := by
      unfold SamplePlayer.next
      have hcheck : (playerPhase smp m n r s K).check_position = true := by
        unfold SamplePlayer.check_position
        simp only [playerPhase, decide_eq_true_eq, hlen, hPAD]
        omega
      rw [hcheck]
      rfl
    have hfrozen : ∀ d : ℕ, (SamplePlayer.advance interp)^[K + d] (playerStart smp m n r s)
        = playerPhase smp m n r s K := by
      intro d
      induction d with
      | zero => exact hiter
      | succ d ih =>
        have : K + (d + 1) = (K + d) + 1 := by omega
        rw [this, Function.iterate_succ_apply', ih, advance_of_done hdead]
    refine ⟨K, ?_⟩
    intro k hk
    have : k = K + (k - K) := by omega
    rw [this, hfrozen (k - K), hdead]

/-- Witness for C6 at sample1 (payload length 1), step 1, nearest
kernel. -/
theorem C6_voice_exhaustion_witness :
    (sample1.len_with_pad = 1 + 2 * Sample.PAD_SIZE_EACH ∧ (0 : ℚ) < 1) ∧
    ((∀ k : ℕ, k ≤ (⌊(1 : ℚ) / 1⌋).toNat →
      ∃ fr p', SamplePlayer.next Interpolation.nearest
          ((SamplePlayer.advance Interpolation.nearest)^[k]
            (playerStart sample1 meta1 { val := 60 } 48000 1))
        = Except.ok (some (fr, p'))) ∧
    (∃ N : ℕ, ∀ k : ℕ, N ≤ k →
      SamplePlayer.next Interpolation.nearest
          ((SamplePlayer.advance Interpolation.nearest)^[k]
            (playerStart sample1 meta1 { val := 60 } 48000 1))
        = Except.ok none)) :=
  ⟨⟨by norm_num [sample1, SampleQ.new_mono, SampleQ.len_with_pad, Sample.PAD_SIZE_EACH],
      by norm_num⟩,
    C6_voice_exhaustion sample1 meta1 { val := 60 } 48000 1 1 Interpolation.nearest
      (by norm_num [sample1, SampleQ.new_mono, SampleQ.len_with_pad, Sample.PAD_SIZE_EACH])
      (by norm_num)⟩

/-- The frame a voice contributes this call: its kernel output (total
form; under the in-bounds invariant the kernel always produces it). -/
def voiceFrame (interp : Interpolation) (v : SamplePlayer) : Frame :=
  (v.computeFrame interp).getD (0, 0)

/-- A voice inside the buffer bounds is alive. -/
lemma check_position_false_of_inbounds {v : SamplePlayer}
    (h : v.pos + Sample.PAD_SIZE_EACH ≤ v.sample.len_with_pad) :
    v.check_position = false := by
  unfold SamplePlayer.check_position
  simp only [decide_eq_false_iff_not, not_lt]
  have hPAD : Sample.PAD_SIZE_EACH = 4 := rfl
  omega

/-- A voice inside the buffer bounds produces its kernel frame and steps. -/
lemma next_some_of_inbounds (interp : Interpolation) {v : SamplePlayer}
    (h : v.pos + Sample.PAD_SIZE_EACH ≤ v.sample.len_with_pad) :
    v.next interp = Except.ok (some (voiceFrame interp v, v.step)) := by
  rcases SamplePlayer.compute_some v interp h with ⟨fr, hfr⟩
  unfold SamplePlayer.next
  rw [check_position_false_of_inbounds h]
  simp only [Bool.false_eq_true, if_false]
  rw [hfr]
  unfold voiceFrame
  rw [hfr]
  rfl

/-- The voice loop of next!: when every stored voice is in bounds, the
mixed frame is the plain (unscaled) sum of the voices' kernel outputs and
each voice that exhausted during this frame has its slot cleared. -/
lemma mixVoices_spec (interp : Interpolation) (voices : List (Option SamplePlayer))
    (h : ∀ ov ∈ voices, ∀ v, ov = some v →
      v.pos + Sample.PAD_SIZE_EACH ≤ v.sample.len_with_pad) :
    mixVoices interp voices = Except.ok
      (((voices.filterMap id).map (voiceFrame interp)).sum,
       voices.map fun ov => ov.bind fun v =>
         if v.step.check_position then none else some v.step) := by
  induction voices with
  | nil =>
    simp only [mixVoices, List.filterMap_nil, List.map_nil, List.sum_nil]
    rfl
  | cons head tail ih =>
    have htail := ih (fun ov hov v hv => h ov (List.mem_cons_of_mem _ hov) v hv)
    cases head with
    | none =>
      simp only [mixVoices, htail, List.filterMap_cons_none, List.map_cons, Option.bind]
      rfl
    | some v =>
      have hv := h (some v) (List.mem_cons_self _ _) v rfl
      simp only [mixVoices, next_some_of_inbounds interp hv, htail,
        List.filterMap_cons_some, List.map_cons, List.sum_cons]
      rfl

/-- Bind on a successful Except is application (definitional for the
Except monad). -/
lemma exceptOkBind {ε α β : Type} (a : α) (f : α → Except ε β) :
    (Except.ok a >>= f : Except ε β) = f a := rfl

/-- A mid-tick step only decrements the frame counter. -/
lemma step_frame_pos (css : SampleMetaData → ℕ → Note → ℚ) (song : Song)
    (st : PlaybackState) (h : 0 < st.frame) :
    PlaybackIter.step css song st = some { st with frame := st.frame - 1 } := by
  unfold PlaybackIter.step PlaybackIter.step_generic
  rw [if_pos h]

/-- C4 (amended): a frame produced mid-tick (frame counter positive, so
the step only decrements it) by the playback iterator equals the plain
sum of the active voices' kernel outputs — no per-channel volume and no
global volume factor is applied — and every voice that became exhausted
during this frame has its slot cleared in the resulting state. -/
theorem C4_mix_formula (css : SampleMetaData → ℕ → Note → ℚ) (interp : Interpolation)
    (song : Song) (st : PlaybackState)
    (hdone : st.is_done = false)
    (hv : ∀ ov ∈ st.voices, ∀ v, ov = some v →
      v.pos + Sample.PAD_SIZE_EACH ≤ v.sample.len_with_pad)
    (hframe : 0 < st.frame) :
    PlaybackIter.next css interp song st
      = Except.ok (some
          (((st.voices.filterMap id).map (voiceFrame interp)).sum,
           { st with
              voices := st.voices.map fun ov => ov.bind fun v =>
                if v.step.check_position then none else some v.step
              frame := st.frame - 1 })) := by
  unfold PlaybackIter.next
  rw [hdone]
  simp only [Bool.false_eq_true, if_false]
  rw [mixVoices_spec interp st.voices hv, exceptOkBind]
  simp only []
  rw [step_frame_pos css song
    { position := st.position, is_done := false, tick := st.tick, frame := st.frame,
      samplerate := st.samplerate,
      voices := st.voices.map fun ov => ov.bind fun v =>
        if v.step.check_position then none else some v.step } hframe]
  rfl

/-- The claimed output formula of C4, written from the spec's words: each
voice's frame scaled by per_channel_volume/255 (the voice's slot index is
its channel), summed, then scaled by global_volume/255. -/
def claimedMixFrame (song : Song) (interp : Interpolation)
    (voices : List (Option SamplePlayer)) : Frame :=
  let scaled := (voices.enum.filterMap fun p =>
    p.2.map fun v =>
      let f := voiceFrame interp v
      let cv : ℚ := ((song.volume.get? p.1).getD 0 : ℕ)
      ((f.1 * (cv / 255), f.2 * (cv / 255)) : Frame)).sum
  (scaled.1 * ((song.global_volume : ℚ) / 255),
   scaled.2 * ((song.global_volume : ℚ) / 255))

/-- The 256-slot voices array with one active voice on channel 0. -/
def voicesC4 : List (Option SamplePlayer) := some player1 :: List.replicate 255 none

/-- Empty slots contribute nothing. -/
lemma mixVoices_replicate_none (interp : Interpolation) (k : ℕ) :
    mixVoices interp (List.replicate k none)
      = Except.ok ((0, 0), List.replicate k none) := by
  induction k with
  | zero => rfl
  | succ k ih =>
    simp only [List.replicate_succ, mixVoices, ih]
    rfl

/-- The kernel output of player1 is the payload frame (1, 1). -/
lemma voiceFrame_player1 : voiceFrame Interpolation.nearest player1 = (1, 1) := by
  have hfr : player1.sample.index player1.pos = some (1, 1) := by decide
  unfold voiceFrame SamplePlayer.computeFrame SamplePlayer.compute_nearest
  rw [if_pos (by norm_num [player1] : player1.frac < 1/2), hfr]
  rfl

/-- Enumerated empty slots are dropped by the claimed formula's
filterMap. -/
lemma filterMap_enumFrom_replicate_none {β : Type}
    (F : ℕ × Option SamplePlayer → Option β) (hF : ∀ i, F (i, none) = none) :
    ∀ (k off : ℕ), (List.enumFrom off (List.replicate k none)).filterMap F = []
  | 0, _ => rfl
  | k + 1, off => by
    simp only [List.replicate_succ, List.enumFrom_cons, List.filterMap_cons, hF]
    exact filterMap_enumFrom_replicate_none F hF k (off + 1)

/-- C4 counterexample: on the default song (per-channel volume 64, global
volume 128) with one active voice whose kernel output is (1, 1), the code
emits the raw frame (1, 1) while the claimed formula yields
64/255 * 128/255 = 8192/65025 per channel. -/
theorem C4_counterexample :
    (∃ vs, mixVoices Interpolation.nearest voicesC4 = Except.ok ((1, 1), vs)) ∧
    claimedMixFrame Song.default Interpolation.nearest voicesC4
      = (8192 / 65025, 8192 / 65025) ∧
    ((8192 / 65025 : ℚ), (8192 / 65025 : ℚ)) ≠ ((1 : ℚ), (1 : ℚ)) := by
  have hv : player1.pos + Sample.PAD_SIZE_EACH ≤ player1.sample.len_with_pad := by
    norm_num [player1, sample1, SampleQ.new_mono, SampleQ.len_with_pad,
      Sample.PAD_SIZE_EACH]
  have hnext : player1.next Interpolation.nearest
      = Except.ok (some ((1, 1), player1.step)) := by
    rw [next_some_of_inbounds Interpolation.nearest hv, voiceFrame_player1]
  have hcons : mixVoices Interpolation.nearest (some player1 :: List.replicate 255 none)
      = (match player1.next Interpolation.nearest with
         | Except.error _ => Except.error ()
         | Except.ok none => Except.error ()
         | Except.ok (some (fr, v')) => do
           let (f, vs) ← mixVoices Interpolation.nearest (List.replicate 255 none)
           pure (fr + f, (if v'.check_position then none else some v') :: vs)) := rfl
  refine ⟨⟨(if player1.step.check_position then none else some player1.step) ::
      List.replicate 255 none, ?_⟩, ?_, by norm_num⟩
  · show mixVoices Interpolation.nearest (some player1 :: List.replicate 255 none) = _
    rw [hcons, hnext]
    simp only []
    rw [mixVoices_replicate_none, exceptOkBind]
    simp only []
    norm_num
    rfl
  · unfold claimedMixFrame
    have henum : voicesC4.enum
        = (0, some player1) :: List.enumFrom 1 (List.replicate 255 none) := rfl
    rw [henum]
    rw [List.filterMap_cons]
    simp only [Option.map_some']
    rw [filterMap_enumFrom_replicate_none _ (fun i => rfl)]
    have hvol : ((Song.default.volume.get? 0).getD 0) = 64 := rfl
    have hgl : Song.default.global_volume = 128 := rfl
    rw [voiceFrame_player1, hvol, hgl]
    norm_num

/-- All slots of voicesC4 are in bounds. -/
lemma voicesC4_inbounds : ∀ ov ∈ voicesC4, ∀ v, ov = some v →
    v.pos + Sample.PAD_SIZE_EACH ≤ v.sample.len_with_pad := by
  intro ov hov v hveq
  rcases List.mem_cons.mp hov with h | h
  · subst h
    injection hveq with h2
    subst h2
    norm_num [player1, sample1, SampleQ.new_mono, SampleQ.len_with_pad,
      Sample.PAD_SIZE_EACH]
  · have := List.eq_of_mem_replicate h
    subst this
    cases hveq

/-- A concrete mid-tick playback state over voicesC4. -/
def stC4 : PlaybackState :=
  { position := { order := some 0, pattern := 0, row := 0, loop_active := false }
    is_done := false
    tick := 6
    frame := 768
    samplerate := 48000
    voices := voicesC4 }

/-- Witness for C4 (amended) at the concrete state stC4. -/
theorem C4_mix_formula_witness :
    (stC4.is_done = false ∧
      (∀ ov ∈ stC4.voices, ∀ v, ov = some v →
        v.pos + Sample.PAD_SIZE_EACH ≤ v.sample.len_with_pad) ∧
      0 < stC4.frame) ∧
    PlaybackIter.next (fun _ _ _ => 1) Interpolation.nearest Song.default stC4
      = Except.ok (some
          (((stC4.voices.filterMap id).map (voiceFrame Interpolation.nearest)).sum,
           { stC4 with
              voices := stC4.voices.map fun ov => ov.bind fun v =>
                if v.step.check_position then none else some v.step
              frame := stC4.frame - 1 })) :=
  ⟨⟨rfl, voicesC4_inbounds, by norm_num [stC4]⟩,
    C4_mix_formula (fun _ _ _ => 1) Interpolation.nearest Song.default stC4
      rfl voicesC4_inbounds (by norm_num [stC4])⟩

section LeftRightProofs

variable {T O : Type}

lemma lrGet_set_same (s : LeftRight T O) (p : Bool) (v : T) :
    lrGetValue (lrSetValue s p v) p = v := by
  cases p <;> rfl

lemma lrGet_set_not (s : LeftRight T O) (p : Bool) (v : T) :
    lrGetValue (lrSetValue s p v) (!p) = lrGetValue s (!p) := by
  cases p <;> rfl

lemma lrSet_write_ptr (s : LeftRight T O) (p : Bool) (v : T) :
    (lrSetValue s p v).write_ptr = s.write_ptr := by
  cases p <;> rfl

lemma lrSet_next_read (s : LeftRight T O) (p : Bool) (v : T) :
    (lrSetValue s p v).next_read = s.next_read := by
  cases p <;> rfl

lemma lrSet_reader_exists (s : LeftRight T O) (p : Bool) (v : T) :
    (lrSetValue s p v).reader_exists = s.reader_exists := by
  cases p <;> rfl

lemma lrSet_op_buffer (s : LeftRight T O) (p : Bool) (v : T) :
    (lrSetValue s p v).op_buffer = s.op_buffer := by
  cases p <;> rfl

/-- With no reader, a run of apply_op calls absorbs the batch into both
buffers and stores nothing. -/
lemma foldl_apply_op_unique (absorb : T → O → T) :
    ∀ (batch : List O) (s : LeftRight T O), s.reader_exists = false →
      batch.foldl (WriteGuard.apply_op absorb) s
        = { s with
            value_1 := batch.foldl absorb s.value_1
            value_2 := batch.foldl absorb s.value_2 }
  | [], s, _ => by cases s; rfl
  | op :: rest, s, h => by
    obtain ⟨v1, v2, wp, nr, re, ob⟩ := s
    cases h
    simp only [List.foldl_cons]
    rw [foldl_apply_op_unique absorb rest _ rfl]
    simp [WriteGuard.apply_op]

/-- With a reader, a run of apply_op calls absorbs the batch into the
write-target buffer and queues it at the end of op_buffer. -/
lemma foldl_apply_op_shared (absorb : T → O → T) :
    ∀ (batch : List O) (s : LeftRight T O), s.reader_exists = true →
      batch.foldl (WriteGuard.apply_op absorb) s
        = { lrSetValue s s.write_ptr (batch.foldl absorb (lrGetValue s s.write_ptr)) with
            op_buffer := s.op_buffer ++ batch }
  | [], s, _ => by
    obtain ⟨v1, v2, wp, nr, re, ob⟩ := s
    cases wp <;> simp [lrSetValue, lrGetValue]
  | op :: rest, s, h => by
    obtain ⟨v1, v2, wp, nr, re, ob⟩ := s
    cases h
    simp only [List.foldl_cons]
    have happ : WriteGuard.apply_op absorb ⟨v1, v2, wp, nr, true, ob⟩ op
        = { lrSetValue ⟨v1, v2, wp, nr, true, ob⟩ wp
              (absorb (lrGetValue ⟨v1, v2, wp, nr, true, ob⟩ wp) op) with
            op_buffer := ob ++ [op] } := by
      simp [WriteGuard.apply_op]
    rw [happ]
    cases wp <;>
      · simp only [lrSetValue, lrGetValue]
        rw [foldl_apply_op_shared absorb rest _ rfl]
        simp [lrSetValue, lrGetValue, List.append_assoc]

/-- The protocol invariant tying a state to the operations applied so
far: the buffer the next read targets holds all of them, the writer
points at the other buffer, and that buffer lags exactly by op_buffer. -/
def lrInv (absorb : T → O → T) (s0 : T) (s : LeftRight T O) (applied : List O) : Prop :=
  lrGetValue s s.next_read = applied.foldl absorb s0 ∧
  s.write_ptr = !s.next_read ∧
  ∃ P, applied = P ++ s.op_buffer ∧ lrGetValue s s.write_ptr = P.foldl absorb s0

/-- A whole write-guard session preserves the invariant, extending the
applied operations by its batch. -/
lemma guardSession_inv (absorb : T → O → T) (s0 : T) (s : LeftRight T O)
    (applied batch : List O) (h : lrInv absorb s0 s applied) :
    lrInv absorb s0 (guardSession absorb s batch) (applied ++ batch) := by
  obtain ⟨h1, h2, P, hP, h3⟩ := h
  obtain ⟨v1, v2, wp, nr, re, ob⟩ := s
  simp only at h1 h2 h3 hP
  subst h2
  subst hP
  cases nr with
  | false =>
    simp only [lrGetValue, Bool.not_false, if_true, Bool.false_eq_true, if_false] at h1 h3
    cases re with
    | false =>
      have hses : guardSession absorb ⟨v1, v2, !false, false, false, ob⟩ batch
          = ⟨List.foldl absorb v1 batch, List.foldl absorb (List.foldl absorb v2 ob) batch,
             !false, false, false, []⟩ := by
        unfold guardSession
        rw [show WriteGuard.new absorb ⟨v1, v2, !false, false, false, ob⟩
            = (⟨v1, List.foldl absorb v2 ob, !false, false, false, []⟩ : LeftRight T O)
            from rfl]
        rw [foldl_apply_op_unique absorb batch _ rfl]
        rfl
      rw [hses]
      refine ⟨?_, rfl, (P ++ ob) ++ batch, by simp, ?_⟩
      · show List.foldl absorb v1 batch = List.foldl absorb s0 ((P ++ ob) ++ batch)
        rw [h1, ← List.foldl_append]
      · show List.foldl absorb (List.foldl absorb v2 ob) batch
            = List.foldl absorb s0 ((P ++ ob) ++ batch)
        rw [h3, ← List.foldl_append, ← List.foldl_append, List.append_assoc]
    | true =>
      cases batch with
      | nil =>
        have hses : guardSession absorb ⟨v1, v2, !false, false, true, ob⟩ []
            = ⟨v1, List.foldl absorb v2 ob, !false, false, true, []⟩ := rfl
        rw [hses]
        refine ⟨?_, rfl, P ++ ob, by simp, ?_⟩
        · show v1 = List.foldl absorb s0 ((P ++ ob) ++ [])
          rw [h1, List.append_nil]
        · show List.foldl absorb v2 ob = List.foldl absorb s0 (P ++ ob)
          rw [h3, ← List.foldl_append]
      | cons b bs =>
        have hses : guardSession absorb ⟨v1, v2, !false, false, true, ob⟩ (b :: bs)
            = ⟨v1, List.foldl absorb (List.foldl absorb v2 ob) (b :: bs),
               !(!false), !false, true, b :: bs⟩ := by
          unfold guardSession
          rw [show WriteGuard.new absorb ⟨v1, v2, !false, false, true, ob⟩
              = (⟨v1, List.foldl absorb v2 ob, !false, false, true, []⟩ : LeftRight T O)
              from rfl]
          rw [foldl_apply_op_shared absorb (b :: bs) _ rfl]
          rfl
        rw [hses]
        refine ⟨?_, rfl, P ++ ob, rfl, ?_⟩
        · show List.foldl absorb (List.foldl absorb v2 ob) (b :: bs)
              = List.foldl absorb s0 ((P ++ ob) ++ b :: bs)
          rw [h3, ← List.foldl_append, ← List.foldl_append, List.append_assoc]
        · show v1 = List.foldl absorb s0 (P ++ ob)
          exact h1
  | true =>
    simp only [lrGetValue, Bool.not_true, if_true, Bool.false_eq_true, if_false] at h1 h3
    cases re with
    | false =>
      have hses : guardSession absorb ⟨v1, v2, !true, true, false, ob⟩ batch
          = ⟨List.foldl absorb (List.foldl absorb v1 ob) batch, List.foldl absorb v2 batch,
             !true, true, false, []⟩ := by
        unfold guardSession
        rw [show WriteGuard.new absorb ⟨v1, v2, !true, true, false, ob⟩
            = (⟨List.foldl absorb v1 ob, v2, !true, true, false, []⟩ : LeftRight T O)
            from rfl]
        rw [foldl_apply_op_unique absorb batch _ rfl]
        rfl
      rw [hses]
      refine ⟨?_, rfl, (P ++ ob) ++ batch, by simp, ?_⟩
      · show List.foldl absorb v2 batch = List.foldl absorb s0 ((P ++ ob) ++ batch)
        rw [h1, ← List.foldl_append]
      · show List.foldl absorb (List.foldl absorb v1 ob) batch
            = List.foldl absorb s0 ((P ++ ob) ++ batch)
        rw [h3, ← List.foldl_append, ← List.foldl_append, List.append_assoc]
    | true =>
      cases batch with
      | nil =>
        have hses : guardSession absorb ⟨v1, v2, !true, true, true, ob⟩ []
            = ⟨List.foldl absorb v1 ob, v2, !true, true, true, []⟩ := rfl
        rw [hses]
        refine ⟨?_, rfl, P ++ ob, by simp, ?_⟩
        · show v2 = List.foldl absorb s0 ((P ++ ob) ++ [])
          rw [h1, List.append_nil]
        · show List.foldl absorb v1 ob = List.foldl absorb s0 (P ++ ob)
          rw [h3, ← List.foldl_append]
      | cons b bs =>
        have hses : guardSession absorb ⟨v1, v2, !true, true, true, ob⟩ (b :: bs)
            = ⟨List.foldl absorb (List.foldl absorb v1 ob) (b :: bs), v2,
               !(!true), !true, true, b :: bs⟩ := by
          unfold guardSession
          rw [show WriteGuard.new absorb ⟨v1, v2, !true, true, true, ob⟩
              = (⟨List.foldl absorb v1 ob, v2, !true, true, true, []⟩ : LeftRight T O)
              from rfl]
          rw [foldl_apply_op_shared absorb (b :: bs) _ rfl]
          rfl
        rw [hses]
        refine ⟨?_, rfl, P ++ ob, rfl, ?_⟩
        · show List.foldl absorb (List.foldl absorb v1 ob) (b :: bs)
              = List.foldl absorb s0 ((P ++ ob) ++ b :: bs)
          rw [h3, ← List.foldl_append, ← List.foldl_append, List.append_assoc]
        · show v2 = List.foldl absorb s0 (P ++ ob)
          exact h1

/-- Reader lifecycle events do not disturb the invariant. -/
lemma reader_events_inv (absorb : T → O → T) (s0 : T) (s : LeftRight T O)
    (applied : List O) (h : lrInv absorb s0 s applied) :
    lrInv absorb s0 (Writer.build_reader s) applied ∧
    lrInv absorb s0 (Reader.drop_reader s) applied := by
  obtain ⟨h1, h2, P, hP, h3⟩ := h
  constructor
  · unfold Writer.build_reader
    by_cases hre : s.reader_exists = true
    · rw [if_pos hre]
      exact ⟨h1, h2, P, hP, h3⟩
    · rw [if_neg hre]
      refine ⟨?_, h2, P, hP, ?_⟩
      · show lrGetValue { s with reader_exists := true } s.next_read = _
        have : ∀ q : Bool, lrGetValue ({ s with reader_exists := true } : LeftRight T O) q
            = lrGetValue s q := by
          intro q
          cases q <;> rfl
        rw [this, h1]
      · show lrGetValue { s with reader_exists := true } s.write_ptr = _
        have : ∀ q : Bool, lrGetValue ({ s with reader_exists := true } : LeftRight T O) q
            = lrGetValue s q := by
          intro q
          cases q <;> rfl
        rw [this, h3]
  · unfold Reader.drop_reader
    refine ⟨?_, h2, P, hP, ?_⟩
    · show lrGetValue { s with reader_exists := false } s.next_read = _
      have : ∀ q : Bool, lrGetValue ({ s with reader_exists := false } : LeftRight T O) q
          = lrGetValue s q := by
        intro q
        cases q <;> rfl
      rw [this, h1]
    · show lrGetValue { s with reader_exists := false } s.write_ptr = _
      have : ∀ q : Bool, lrGetValue ({ s with reader_exists := false } : LeftRight T O) q
          = lrGetValue s q := by
        intro q
        cases q <;> rfl
      rw [this, h3]

/-- The invariant is preserved along any event trace. -/
lemma lrRun_inv (absorb : T → O → T) (s0 : T) :
    ∀ (events : List (LREvent O)) (s : LeftRight T O) (applied : List O),
      lrInv absorb s0 s applied →
      lrInv absorb s0 (lrRun absorb s events) (applied ++ lrBatches events)
  | [], s, applied, h => by
    simpa [lrRun, lrBatches] using h
  | LREvent.session batch :: rest, s, applied, h => by
    have h' := guardSession_inv absorb s0 s applied batch h
    have := lrRun_inv absorb s0 rest (guardSession absorb s batch) (applied ++ batch) h'
    simpa [lrRun, lrStep, lrBatches, List.append_assoc] using this
  | LREvent.buildReader :: rest, s, applied, h => by
    have h' := (reader_events_inv absorb s0 s applied h).1
    have := lrRun_inv absorb s0 rest (Writer.build_reader s) applied h'
    simpa [lrRun, lrStep, lrBatches] using this
  | LREvent.dropReader :: rest, s, applied, h => by
    have h' := (reader_events_inv absorb s0 s applied h).2
    have := lrRun_inv absorb s0 rest (Reader.drop_reader s) applied h'
    simpa [lrRun, lrStep, lrBatches] using this

/-- C1: starting from a fresh writer over any initial value, after any
trace of complete write-guard sessions and reader builds/drops, a
Reader::lock observes exactly the initial value with the batches of all
completed sessions applied in order — the batches of a prefix of the
whole session schedule, never part of a batch and never writes of two
guards interleaved out of order. -/
theorem C1_snapshot_atomicity {T O : Type} (absorb : T → O → T) (s0 : T)
    (events : List (LREvent O)) :
    Reader.lock (lrRun absorb (Writer.new s0) events)
      = (lrBatches events).foldl absorb s0 := by
  have hinit : lrInv absorb s0 (Writer.new (O := O) s0) [] := by
    refine ⟨rfl, rfl, [], rfl, rfl⟩
  have h := lrRun_inv absorb s0 events (Writer.new s0) [] hinit
  obtain ⟨h1, _, _⟩ := h
  unfold Reader.lock
  rw [h1]
  rfl

end LeftRightProofs

end TrackerEngine
